import Mathlib

/-!
# RTOS scheduler simulator: shallow embedding of `src/main.cpp`

The C++ program simulates a fixed-priority scheduler with one mutex and
priority inheritance.  This file embeds its data model and its tick loop
and proves properties of them.

Modelling conventions.

* A C++ `int` is a Lean `Int`.  Signed overflow is undefined behaviour in
  C++; the counters of the program move by one per tick over at most 1001
  ticks, so the embedding is faithful for every configuration whose
  values stay away from the limits of `int`.
* `vector<Task>` is a `List Task`; a reference `Task &tk = tasks[idx]` is
  a read of position `idx` followed by writes to the same position.
* An out-of-range `tasks[...]` is undefined behaviour in C++: the
  functions that index return `Option`, and `none` stands for it.
* The log is a list of lines.  `log_event` formats every line with
  `sprintf` into `char buf[64]`; a line that does not fit overruns the
  buffer, which is undefined behaviour: `tick` and `sim_at` return `none`
  as soon as a line pushed to the log fails `fits_buffer`.
-/

namespace RtosScheduler

/-! ## Data model (`struct Task`, `struct SimpleMutex`) -/

/-- One task record, field for field as in `struct Task`. -/
structure Task where
  id : Int
  name : String
  base_priority : Int
  cur_priority : Int
  period : Int
  wcet : Int
  remaining : Int
  exec_progress : Int
  release_time : Int
  active : Bool
  mutex_start : Int
  mutex_dur : Int
deriving DecidableEq, Repr

/-- The constructor `Task::Task(_id, _name, bp, p, w, rel)` with the default
member initialisers `mutex_start = -1`, `mutex_dur = 0`. -/
def Task.new (id : Int) (name : String) (bp p w rel : Int) : Task :=
  { id := id, name := name, base_priority := bp, cur_priority := bp,
    period := p, wcet := w, remaining := 0, exec_progress := 0,
    release_time := rel, active := false, mutex_start := -1, mutex_dur := 0 }

/-- The shared mutex: `holder_id = -1` means no holder. -/
structure SimpleMutex where
  holder_id : Int
deriving DecidableEq, Repr

/-- A task descriptor: the constructor arguments together with the two
critical-section members that `main` assigns after construction. -/
structure TaskSpec where
  id : Int
  name : String
  base_priority : Int
  period : Int
  wcet : Int
  release_time : Int
  mutex_start : Int
  mutex_dur : Int
deriving DecidableEq, Repr

/-- Construction of one task the way `main` does it: constructor call, then
assignment of `mutex_start` and `mutex_dur`. -/
def build (d : TaskSpec) : Task :=
  { Task.new d.id d.name d.base_priority d.period d.wcet d.release_time with
    mutex_start := d.mutex_start, mutex_dur := d.mutex_dur }

/-- The whole simulator state: the task vector, the mutex and the log. -/
structure Sim where
  tasks : List Task
  mu : SimpleMutex
  logs : List String
deriving DecidableEq, Repr

/-- The constant `SIM_TIME` of `main`. -/
def SIM_TIME : Nat := 1000

/-! ## Logging -/

/-- Left padding with zeros up to a width. -/
def zpad (w : Nat) (d : String) : String :=
  String.mk (List.replicate (w - d.length) '0') ++ d

/-- The conversion `%04d` of `printf`. -/
def fmt04 (t : Int) : String :=
  if t < 0 then "-" ++ zpad 3 (toString t.natAbs) else zpad 4 (toString t.toNat)

/-- The function `log_event`: the line `"%04d ms: %s"` that `sprintf` builds
is pushed to the back. The bound of the buffer it is built in is
`fits_buffer`, checked on every pushed line by `tick` and `sim_at`. -/
def log_event (logs : List String) (t : Int) (s : String) : List String :=
  logs ++ [fmt04 t ++ " ms: " ++ s]

/-- A line fits `char buf[64]` of `log_event` when its bytes and the
terminating zero do: at most 63 bytes. The running message of line 131 is
built in `char evbuf[128]` and then passed to `log_event`, so it fits its
own buffer whenever the line does (`running_message_fits`). -/
def fits_buffer (line : String) : Bool := decide (line.utf8ByteSize < 64)

/-- Every line of a list fits the buffer of `log_event`. -/
def lines_fit (lines : List String) : Bool := lines.all fits_buffer

/-! ## Dispatcher (`pick_task`) -/

/-- A task is Ready when the loop of `pick_task` does not skip it. -/
def Task.ready (t : Task) : Bool := t.active && decide (0 < t.remaining)

/-- The loop of `pick_task`, from position `i` on, with the loop variables
`best` and `best_prio`. -/
def pick_loop : List Task → Nat → Int → Int → Int
  | [], _, best, _ => best
  | t :: ts, i, best, best_prio =>
    if !t.active || t.remaining ≤ 0 then pick_loop ts (i + 1) best best_prio
    else if t.cur_priority > best_prio then pick_loop ts (i + 1) (i : Int) t.cur_priority
    else pick_loop ts (i + 1) best best_prio

/-- The function `pick_task`: index of the selected task, or `-1`. -/
def pick_task (tasks : List Task) : Int := pick_loop tasks 0 (-1) (-1)

/-! ## Release passes -/

/-- The record of a task whose job has just been released before the loop
(lines 76-78: the priority is not touched). -/
def Task.start_job (t : Task) : Task :=
  { t with remaining := t.wcet, exec_progress := 0, active := true }

/-- The record of a task whose job is released inside the tick loop
(lines 88-91). -/
def Task.release_job (t : Task) : Task :=
  { t with remaining := t.wcet, exec_progress := 0, active := true,
           cur_priority := t.base_priority }

/-- The initial release pass (lines 74-81). -/
def init_release : List Task → List String → List Task × List String
  | [], logs => ([], logs)
  | t :: ts, logs =>
    if t.release_time = 0 then
      let r := init_release ts (log_event logs 0 (t.name ++ " released"))
      (t.start_job :: r.1, r.2)
    else
      let r := init_release ts logs
      (t :: r.1, r.2)

/-- The release loop at the head of a tick (lines 86-94). -/
def releases (time : Int) : List Task → List String → List Task × List String
  | [], logs => ([], logs)
  | t :: ts, logs =>
    if time = t.release_time ∧ time ≠ 0 then
      let r := releases time ts (log_event logs time (t.name ++ " released"))
      (t.release_job :: r.1, r.2)
    else
      let r := releases time ts logs
      (t :: r.1, r.2)

/-! ## Mutex protocol and execution -/

/-- The guard of the wake loop (line 142) for a task `other`, the running
task having id `tkid`. -/
def wake_cond (tkid : Int) (other : Task) : Bool :=
  !other.active && decide (other.remaining > 0) && decide (other.exec_progress ≥ 0)
    && decide (other.id ≠ tkid) && decide (other.mutex_start = other.exec_progress)

/-- The wake loop (lines 141-147). -/
def wake_loop (time : Int) (tkid : Int) : List Task → List String → List Task × List String
  | [], logs => ([], logs)
  | other :: ts, logs =>
    if wake_cond tkid other then
      let r := wake_loop time tkid ts
        (log_event logs time (other.name ++ " unblocked (mutex freed)"))
      ({ other with active := true } :: r.1, r.2)
    else
      let r := wake_loop time tkid ts logs
      (other :: r.1, r.2)

/-- The request test of line 106. -/
def Task.requesting (tk : Task) : Prop :=
  tk.exec_progress = tk.mutex_start ∧ tk.mutex_start ≥ 0

instance (tk : Task) : Decidable tk.requesting := by
  unfold Task.requesting; infer_instance

/-- The release test of line 135, on the record after execution. -/
def release_cond (tk : Task) (mu : SimpleMutex) : Prop :=
  tk.mutex_start ≥ 0 ∧ tk.exec_progress = tk.mutex_start + tk.mutex_dur ∧ mu.holder_id = tk.id

instance (tk : Task) (mu : SimpleMutex) : Decidable (release_cond tk mu) := by
  unfold release_cond; infer_instance

/-- The completion check (lines 150-154) on position `i`. -/
def complete (time : Int) (i : Nat) (s : Sim) : Option Sim :=
  match s.tasks[i]? with
  | none => none
  | some tk =>
    if tk.remaining ≤ 0 then
      some { s with
        tasks := s.tasks.set i { tk with active := false },
        logs := log_event s.logs time (tk.name ++ " completed job") }
    else some s

/-- Lines 127-154: the task at position `i` runs for one millisecond, then
the release test, the wake loop and the completion check. -/
def run (time : Int) (i : Nat) (s : Sim) : Option Sim :=
  match s.tasks[i]? with
  | none => none
  | some tk0 =>
    let tk1 : Task :=
      { tk0 with remaining := tk0.remaining - 1, exec_progress := tk0.exec_progress + 1 }
    let logs1 := log_event s.logs time
      (tk1.name ++ " running (remaining=" ++ toString tk1.remaining ++ ")")
    if release_cond tk1 s.mu then
      let logs2 := log_event logs1 time (tk1.name ++ " released mutex")
      let tk2 : Task := { tk1 with cur_priority := tk1.base_priority }
      let r := wake_loop time tk2.id (s.tasks.set i tk2) logs2
      complete time i { tasks := r.1, mu := { holder_id := -1 }, logs := r.2 }
    else
      complete time i { s with tasks := s.tasks.set i tk1, logs := logs1 }

/-- Lines 112-123: the task at position `i` blocks; the task at position
`mu.holder_id` inherits its priority when lower. -/
def block (time : Int) (i : Nat) (s : Sim) : Option Sim :=
  match s.tasks[i]? with
  | none => none
  | some tk =>
    if s.mu.holder_id < 0 then none
    else
      match s.tasks[s.mu.holder_id.toNat]? with
      | none => none
      | some ht =>
        let logs1 := log_event s.logs time
          (tk.name ++ " blocked waiting for mutex (holder=" ++ ht.name ++ ")")
        let tasks1 :=
          if ht.cur_priority < tk.cur_priority then
            s.tasks.set s.mu.holder_id.toNat { ht with cur_priority := tk.cur_priority }
          else s.tasks
        let logs2 :=
          if ht.cur_priority < tk.cur_priority then
            log_event logs1 time
              ("Priority inheritance: raising " ++ ht.name ++ " prio from " ++
                toString ht.cur_priority ++ " to " ++ toString tk.cur_priority)
          else logs1
        match tasks1[i]? with
        | none => none
        | some tk1 =>
          some { s with tasks := tasks1.set i { tk1 with active := false }, logs := logs2 }

/-- Lines 96-154: dispatch, mutex protocol, execution. -/
def step (time : Int) (s : Sim) : Option Sim :=
  let idx := pick_task s.tasks
  if idx = -1 then some s
  else
    match s.tasks[idx.toNat]? with
    | none => none
    | some tk =>
      if tk.requesting then
        if s.mu.holder_id = -1 then
          run time idx.toNat
            { s with mu := { holder_id := tk.id },
                     logs := log_event s.logs time (tk.name ++ " acquired mutex") }
        else if s.mu.holder_id ≠ tk.id then block time idx.toNat s
        else run time idx.toNat s
      else run time idx.toNat s

/-- The state at the dispatch point of a tick: the release loop has run. -/
def after_releases (time : Int) (s : Sim) : Sim :=
  let r := releases time s.tasks s.logs
  { s with tasks := r.1, logs := r.2 }

/-- One iteration of the tick loop (lines 84-155): the release loop, then
dispatch, mutex protocol and execution. It is undefined when an index goes
out of range or when one of the lines it pushes to the log overruns the
buffer of `log_event`. -/
def tick (time : Int) (s : Sim) : Option Sim :=
  match step time (after_releases time s) with
  | none => none
  | some s' => if lines_fit (s'.logs.drop s.logs.length) then some s' else none

/-- The state before the tick loop: tasks built from their descriptors, the
mutex free, the initial release pass done. -/
def start (cfg : List TaskSpec) : Sim :=
  let r := init_release (cfg.map build) []
  { tasks := r.1, mu := { holder_id := -1 }, logs := r.2 }

/-- The state after `n` iterations of the tick loop (ticks `0 .. n-1`);
`none` when the run is undefined before that. -/
def sim_at (cfg : List TaskSpec) : Nat → Option Sim
  | 0 => if lines_fit (start cfg).logs then some (start cfg) else none
  | n + 1 => (sim_at cfg n).bind (tick (n : Int))

/-- A state the program goes through: the state after `n` iterations of
the loop, for some `n` up to `SIM_TIME + 1`. -/
def Reachable (cfg : List TaskSpec) (s : Sim) : Prop :=
  ∃ n, n ≤ SIM_TIME + 1 ∧ sim_at cfg n = some s

/-- The program `main` on a task set: the lines it prints and its exit
status, `none` when its behaviour is undefined (an index out of range, a
log line that overruns its buffer). -/
def main_program (cfg : List TaskSpec) : Option (List String × Int) :=
  (sim_at cfg (SIM_TIME + 1)).map (fun s => (s.logs, 0))

/-- The task set that `main` hardcodes. -/
def demo : List TaskSpec :=
  [ { id := 0, name := "Low", base_priority := 1, period := 1000, wcet := 120,
      release_time := 0, mutex_start := 10, mutex_dur := 200 },
    { id := 1, name := "Med", base_priority := 5, period := 1000, wcet := 50,
      release_time := 20, mutex_start := -1, mutex_dur := 0 },
    { id := 2, name := "High", base_priority := 10, period := 1000, wcet := 30,
      release_time := 30, mutex_start := -1, mutex_dur := 0 } ]

/-! ## Per-task readings of the loops

The loops of the program walk the task vector; the functions below give
what each of them does to one record.  The theorems relate them to the
loops. -/

/-- What the initial release pass does to one record. -/
def init_at (t : Task) : Task :=
  if t.release_time = 0 then t.start_job else t

/-- What the release loop of tick `time` does to one record. -/
def release_at (time : Int) (t : Task) : Task :=
  if time = t.release_time ∧ time ≠ 0 then t.release_job else t

/-- What the wake loop does to one record. -/
def wake_at (tkid : Int) (t : Task) : Task :=
  if wake_cond tkid t then { t with active := true } else t

/-- One millisecond of execution (lines 128-129). -/
def Task.exec (t : Task) : Task :=
  { t with remaining := t.remaining - 1, exec_progress := t.exec_progress + 1 }

/-- The priority restored on release of the mutex (line 139). -/
def Task.restore (t : Task) : Task :=
  { t with cur_priority := t.base_priority }

/-- The completion check on one record (lines 150-153). -/
def Task.finish (t : Task) : Task :=
  if t.remaining ≤ 0 then { t with active := false } else t

/-- What lines 127-154 do to the record at position `j` when the task at
position `i`, of id `tkid`, runs; `rel` tells whether the release test of
line 135 succeeds. -/
def run_at (rel : Bool) (i : Nat) (tkid : Int) (j : Nat) (t : Task) : Task :=
  if j = i then (if rel then t.exec.restore else t.exec).finish
  else if rel then wake_at tkid t else t

/-- What lines 112-123 do to the record at position `j` when the task at
position `i`, of priority `p`, blocks and position `h` is looked up as the
holder. -/
def block_at (i h : Nat) (p : Int) (j : Nat) (t : Task) : Task :=
  let t1 : Task := if j = h ∧ t.cur_priority < p then { t with cur_priority := p } else t
  if j = i then { t1 with active := false } else t1

/-- The dispatched task blocks: the request test holds and the mutex is
held under another id (lines 106, 107, 111). -/
def blocks (s : Sim) (tk : Task) : Prop :=
  tk.requesting ∧ s.mu.holder_id ≠ -1 ∧ s.mu.holder_id ≠ tk.id

instance (s : Sim) (tk : Task) : Decidable (blocks s tk) := by
  unfold blocks; infer_instance

/-- The mutex after the request test: granted to `tk` when it requests a
free mutex (lines 107-110), unchanged otherwise. -/
def mu_after_request (s : Sim) (tk : Task) : SimpleMutex :=
  if tk.requesting ∧ s.mu.holder_id = -1 then { holder_id := tk.id } else s.mu

/-- The position of the task that executes one millisecond in the tick that
starts at the dispatch point `s`: `none` when the tick is idle or the
dispatched task blocks. -/
def runs_at (s : Sim) : Option Nat :=
  if pick_task s.tasks = -1 then none
  else
    match s.tasks[(pick_task s.tasks).toNat]? with
    | none => none
    | some tk => if blocks s tk then none else some (pick_task s.tasks).toNat

/-- The tick that starts at the dispatch point `s` takes the release branch
of line 135: the task at position `i` executes and passes the release test. -/
def frees_mutex (s : Sim) (i : Nat) : Prop :=
  runs_at s = some i ∧
    ∃ tk, s.tasks[i]? = some tk ∧ release_cond tk.exec (mu_after_request s tk)

/-- The job of `t` has been released once `n` iterations of the tick loop
are done: by the initial pass, or by the release loop of a tick before `n`. -/
def Task.released (n : Nat) (t : Task) : Prop :=
  t.release_time = 0 ∨ (0 < t.release_time ∧ t.release_time < (n : Int))

instance (n : Nat) (t : Task) : Decidable (t.released n) := by
  unfold Task.released; infer_instance

/-- A task is Blocked: parked by the block branch, with work left. -/
def Task.blocked (t : Task) : Prop := t.active = false ∧ 0 < t.remaining

instance (t : Task) : Decidable t.blocked := by
  unfold Task.blocked; infer_instance

/-- The ids of a task set are the positions in the list. -/
def ids_are_positions (cfg : List TaskSpec) : Prop :=
  cfg.map (fun d => d.id) = (List.range cfg.length).map (fun (j : Nat) => (j : Int))

instance (cfg : List TaskSpec) : Decidable (ids_are_positions cfg) := by
  unfold ids_are_positions; infer_instance

/-! ## Invariants of the tick loop -/

/-- The fields of a record that no statement of the program assigns after
construction. -/
def Task.static (t : Task) : TaskSpec :=
  { id := t.id, name := t.name, base_priority := t.base_priority, period := t.period,
    wcet := t.wcet, release_time := t.release_time, mutex_start := t.mutex_start,
    mutex_dur := t.mutex_dur }

/-- What holds of every record once `n` iterations of the tick loop are
done, whatever the task set. -/
def task_inv (n : Nat) (t : Task) : Prop :=
  t.base_priority ≤ t.cur_priority ∧
  0 ≤ t.exec_progress ∧
  (0 ≤ t.wcet → 0 ≤ t.remaining) ∧
  (t.released n → t.remaining + t.exec_progress = t.wcet) ∧
  (¬ t.released n → t.remaining = 0 ∧ t.exec_progress = 0 ∧ t.active = false) ∧
  (t.blocked → t.requesting)

/-- The mutex invariant when ids are positions: `holder_id` is `-1` or a
valid position, and every record away from that position carries its base
priority. -/
def holder_inv (s : Sim) : Prop :=
  (s.mu.holder_id = -1 ∨ (0 ≤ s.mu.holder_id ∧ s.mu.holder_id.toNat < s.tasks.length)) ∧
  ∀ (j : Nat) (t : Task), s.tasks[j]? = some t → s.mu.holder_id ≠ (j : Int) →
    t.cur_priority = t.base_priority

/-- The holder is strictly inside its critical section. -/
def holder_in_section (s : Sim) : Prop :=
  ∀ (j : Nat) (t : Task), s.tasks[j]? = some t → s.mu.holder_id = (j : Int) →
    0 ≤ t.mutex_start ∧ t.mutex_start < t.exec_progress ∧
      t.exec_progress < t.mutex_start + t.mutex_dur

/-- The configuration constraints of the specification: non-negative
timing fields, non-negative offset and duration with `offset + duration ≤
wcet` for every critical section, ids equal to list positions. A task has
a critical section when its `mutex_start` is not negative. -/
def spec_constraints (cfg : List TaskSpec) : Prop :=
  ids_are_positions cfg ∧
  ∀ d ∈ cfg, 0 ≤ d.wcet ∧ 0 ≤ d.period ∧ 0 ≤ d.release_time ∧
    (0 ≤ d.mutex_start → 0 ≤ d.mutex_dur ∧ d.mutex_start + d.mutex_dur ≤ d.wcet)

instance (cfg : List TaskSpec) : Decidable (spec_constraints cfg) := by
  unfold spec_constraints; infer_instance

/-- Every critical section lasts at least one millisecond. -/
def positive_sections (cfg : List TaskSpec) : Prop :=
  ∀ d ∈ cfg, 0 ≤ d.mutex_start → 1 ≤ d.mutex_dur

instance (cfg : List TaskSpec) : Decidable (positive_sections cfg) := by
  unfold positive_sections; infer_instance

/-- The task at the position of the holder has had its job released. -/
def holder_released (n : Nat) (s : Sim) : Prop :=
  ∀ (j : Nat) (t : Task), s.tasks[j]? = some t → s.mu.holder_id = (j : Int) → t.released n

/-- Every Blocked task waits on a held mutex, held at another position by a
task whose priority is at least its own. -/
def waiters_inv (s : Sim) : Prop :=
  ∀ (j : Nat) (B : Task), s.tasks[j]? = some B → B.blocked →
    s.mu.holder_id ≠ -1 ∧ s.mu.holder_id ≠ (j : Int) ∧
    ∀ (h : Nat) (H : Task), s.mu.holder_id = (h : Int) → s.tasks[h]? = some H →
      B.cur_priority ≤ H.cur_priority

/-- Within its first `n` ticks the run pushes a line that overruns the
buffer of `log_event`: in the initial release pass, or in a tick it has
reached and whose dispatch part is defined. -/
def overruns (cfg : List TaskSpec) (n : Nat) : Prop :=
  lines_fit (start cfg).logs = false ∨
  ∃ (k : Nat) (s s1 : Sim), k < n ∧ sim_at cfg k = some s ∧
    step (k : Int) (after_releases (k : Int) s) = some s1 ∧
    lines_fit (s1.logs.drop s.logs.length) = false

/-! ## Observations of a run -/

/-- What an observer reads off the state after `n` iterations of the tick
loop: the holder, and for every task its `cur_priority`, `active`,
`remaining` and `exec_progress`. -/
def snapshot (cfg : List TaskSpec) (n : Nat) : Option (Int × List (Int × Bool × Int × Int)) :=
  (sim_at cfg n).map (fun s =>
    (s.mu.holder_id,
      s.tasks.map (fun t => (t.cur_priority, t.active, t.remaining, t.exec_progress))))

/-- The position of the task that executes in tick `t` of the run (inner
`none`: the tick is idle or the dispatched task blocks). -/
def executes (cfg : List TaskSpec) (t : Nat) : Option (Option Nat) :=
  (sim_at cfg t).map (fun s => runs_at (after_releases (t : Int) s))

/-- The lines that tick `t` of the run pushes to the log. -/
def events_of (cfg : List TaskSpec) (t : Nat) : Option (List String) :=
  (sim_at cfg t).bind (fun s =>
    (sim_at cfg (t + 1)).map (fun s' => s'.logs.drop s.logs.length))

/-! ## Inputs used as examples -/

/-- A list with one Ready task of priority `-1`. -/
def negative_ready : List Task :=
  [{ Task.new 0 "N" (-1) 100 5 0 with remaining := 5, active := true }]

/-- A state in which the only task holds the mutex and is one millisecond
away from the end of its critical section. -/
def holding_state : Sim :=
  { tasks := [{ Task.new 0 "L" 5 10 5 0 with
                mutex_start := 0, mutex_dur := 2, remaining := 4, exec_progress := 1,
                active := true }],
    mu := { holder_id := 0 },
    logs := [] }

/-- Two tasks contending for the mutex, ids equal to positions: the low
task takes the mutex at tick 0, the high task blocks on it at tick 1. -/
def inversion_cfg : List TaskSpec :=
  [ { id := 0, name := "L", base_priority := 1, period := 10, wcet := 4,
      release_time := 0, mutex_start := 0, mutex_dur := 3 },
    { id := 1, name := "H", base_priority := 9, period := 10, wcet := 2,
      release_time := 1, mutex_start := 0, mutex_dur := 1 } ]

/-- Two tasks with distinct ids that are not their positions: the task
at position 0 has id 1 and the task at position 1 has id 0. -/
def swapped_ids_cfg : List TaskSpec :=
  [ { id := 1, name := "L", base_priority := 1, period := 10, wcet := 10,
      release_time := 0, mutex_start := 0, mutex_dur := 5 },
    { id := 0, name := "H", base_priority := 9, period := 10, wcet := 3,
      release_time := 2, mutex_start := 0, mutex_dur := 1 } ]

/-- One task whose critical section has duration zero. -/
def zero_section_cfg : List TaskSpec :=
  [ { id := 0, name := "Z", base_priority := 1, period := 10, wcet := 1,
      release_time := 0, mutex_start := 0, mutex_dur := 0 } ]

/-- A task that frees the mutex at tick 1, the tick at which the job of a
second task is released. -/
def release_overlap_cfg : List TaskSpec :=
  [ { id := 0, name := "L", base_priority := 5, period := 10, wcet := 5,
      release_time := 0, mutex_start := 0, mutex_dur := 2 },
    { id := 1, name := "O", base_priority := 1, period := 10, wcet := 1,
      release_time := 1, mutex_start := -1, mutex_dur := 0 } ]

/-- Scenario A of the specification: `Low` takes the mutex, `Medium`
preempts it, `High` requests the mutex that `Low` holds. -/
def scenario_a : List TaskSpec :=
  [ { id := 0, name := "Low", base_priority := 1, period := 1000, wcet := 200,
      release_time := 0, mutex_start := 10, mutex_dur := 50 },
    { id := 1, name := "Medium", base_priority := 5, period := 1000, wcet := 50,
      release_time := 20, mutex_start := -1, mutex_dur := 0 },
    { id := 2, name := "High", base_priority := 10, period := 1000, wcet := 30,
      release_time := 30, mutex_start := 0, mutex_dur := 10 } ]

/-- One task whose critical section ends beyond its `wcet`. -/
def overlong_section_cfg : List TaskSpec :=
  [ { id := 0, name := "U", base_priority := 1, period := 10, wcet := 2,
      release_time := 0, mutex_start := 0, mutex_dur := 5 } ]

/-- Two tasks with distinct ids that are larger than every position. -/
def sparse_ids_cfg : List TaskSpec :=
  [ { id := 5, name := "L", base_priority := 1, period := 10, wcet := 10,
      release_time := 0, mutex_start := 0, mutex_dur := 5 },
    { id := 7, name := "H", base_priority := 9, period := 10, wcet := 3,
      release_time := 2, mutex_start := 0, mutex_dur := 1 } ]

/-! # Theorems -/

/-! ## Field projections of the per-task functions -/

@[simp] theorem finish_id (t : Task) : (t.finish).id = t.id := by
  unfold Task.finish; split <;> rfl

@[simp] theorem finish_name (t : Task) : (t.finish).name = t.name := by
  unfold Task.finish; split <;> rfl

@[simp] theorem finish_base_priority (t : Task) : (t.finish).base_priority = t.base_priority := by
  unfold Task.finish; split <;> rfl

@[simp] theorem finish_cur_priority (t : Task) : (t.finish).cur_priority = t.cur_priority := by
  unfold Task.finish; split <;> rfl

@[simp] theorem finish_period (t : Task) : (t.finish).period = t.period := by
  unfold Task.finish; split <;> rfl

@[simp] theorem finish_wcet (t : Task) : (t.finish).wcet = t.wcet := by
  unfold Task.finish; split <;> rfl

@[simp] theorem finish_remaining (t : Task) : (t.finish).remaining = t.remaining := by
  unfold Task.finish; split <;> rfl

@[simp] theorem finish_exec_progress (t : Task) : (t.finish).exec_progress = t.exec_progress := by
  unfold Task.finish; split <;> rfl

@[simp] theorem finish_release_time (t : Task) : (t.finish).release_time = t.release_time := by
  unfold Task.finish; split <;> rfl

@[simp] theorem finish_mutex_start (t : Task) : (t.finish).mutex_start = t.mutex_start := by
  unfold Task.finish; split <;> rfl

@[simp] theorem finish_mutex_dur (t : Task) : (t.finish).mutex_dur = t.mutex_dur := by
  unfold Task.finish; split <;> rfl

@[simp] theorem finish_active (t : Task) :
    t.finish.active = (if t.remaining ≤ 0 then false else t.active) := by
  unfold Task.finish; split <;> rfl

@[simp] theorem exec_id (t : Task) : (t.exec).id = t.id := by
  rfl

@[simp] theorem exec_name (t : Task) : (t.exec).name = t.name := by
  rfl

@[simp] theorem exec_base_priority (t : Task) : (t.exec).base_priority = t.base_priority := by
  rfl

@[simp] theorem exec_cur_priority (t : Task) : (t.exec).cur_priority = t.cur_priority := by
  rfl

@[simp] theorem exec_period (t : Task) : (t.exec).period = t.period := by
  rfl

@[simp] theorem exec_wcet (t : Task) : (t.exec).wcet = t.wcet := by
  rfl

@[simp] theorem exec_release_time (t : Task) : (t.exec).release_time = t.release_time := by
  rfl

@[simp] theorem exec_active (t : Task) : (t.exec).active = t.active := by
  rfl

@[simp] theorem exec_mutex_start (t : Task) : (t.exec).mutex_start = t.mutex_start := by
  rfl

@[simp] theorem exec_mutex_dur (t : Task) : (t.exec).mutex_dur = t.mutex_dur := by
  rfl

@[simp] theorem exec_remaining (t : Task) : t.exec.remaining = t.remaining - 1 := rfl

@[simp] theorem exec_exec_progress (t : Task) : t.exec.exec_progress = t.exec_progress + 1 := rfl

@[simp] theorem restore_id (t : Task) : (t.restore).id = t.id := by
  rfl

@[simp] theorem restore_name (t : Task) : (t.restore).name = t.name := by
  rfl

@[simp] theorem restore_base_priority (t : Task) : (t.restore).base_priority = t.base_priority := by
  rfl

@[simp] theorem restore_period (t : Task) : (t.restore).period = t.period := by
  rfl

@[simp] theorem restore_wcet (t : Task) : (t.restore).wcet = t.wcet := by
  rfl

@[simp] theorem restore_remaining (t : Task) : (t.restore).remaining = t.remaining := by
  rfl

@[simp] theorem restore_exec_progress (t : Task) : (t.restore).exec_progress = t.exec_progress := by
  rfl

@[simp] theorem restore_release_time (t : Task) : (t.restore).release_time = t.release_time := by
  rfl

@[simp] theorem restore_active (t : Task) : (t.restore).active = t.active := by
  rfl

@[simp] theorem restore_mutex_start (t : Task) : (t.restore).mutex_start = t.mutex_start := by
  rfl

@[simp] theorem restore_mutex_dur (t : Task) : (t.restore).mutex_dur = t.mutex_dur := by
  rfl

@[simp] theorem restore_cur_priority (t : Task) : t.restore.cur_priority = t.base_priority := rfl

@[simp] theorem wake_at_id (k : Int) (t : Task) : (wake_at k t).id = t.id := by
  unfold wake_at; split <;> rfl

@[simp] theorem wake_at_name (k : Int) (t : Task) : (wake_at k t).name = t.name := by
  unfold wake_at; split <;> rfl

@[simp] theorem wake_at_base_priority (k : Int) (t : Task) : (wake_at k t).base_priority = t.base_priority := by
  unfold wake_at; split <;> rfl

@[simp] theorem wake_at_cur_priority (k : Int) (t : Task) : (wake_at k t).cur_priority = t.cur_priority := by
  unfold wake_at; split <;> rfl

@[simp] theorem wake_at_period (k : Int) (t : Task) : (wake_at k t).period = t.period := by
  unfold wake_at; split <;> rfl

@[simp] theorem wake_at_wcet (k : Int) (t : Task) : (wake_at k t).wcet = t.wcet := by
  unfold wake_at; split <;> rfl

@[simp] theorem wake_at_remaining (k : Int) (t : Task) : (wake_at k t).remaining = t.remaining := by
  unfold wake_at; split <;> rfl

@[simp] theorem wake_at_exec_progress (k : Int) (t : Task) : (wake_at k t).exec_progress = t.exec_progress := by
  unfold wake_at; split <;> rfl

@[simp] theorem wake_at_release_time (k : Int) (t : Task) : (wake_at k t).release_time = t.release_time := by
  unfold wake_at; split <;> rfl

@[simp] theorem wake_at_mutex_start (k : Int) (t : Task) : (wake_at k t).mutex_start = t.mutex_start := by
  unfold wake_at; split <;> rfl

@[simp] theorem wake_at_mutex_dur (k : Int) (t : Task) : (wake_at k t).mutex_dur = t.mutex_dur := by
  unfold wake_at; split <;> rfl

@[simp] theorem release_at_id (time : Int) (t : Task) : (release_at time t).id = t.id := by
  unfold release_at Task.release_job; split <;> rfl

@[simp] theorem init_at_id (t : Task) : (init_at t).id = t.id := by
  unfold init_at Task.start_job; split <;> rfl

@[simp] theorem run_at_id (rel : Bool) (i : Nat) (k : Int) (j : Nat) (t : Task) : (run_at rel i k j t).id = t.id := by
  unfold run_at; split <;> (try split) <;> simp

@[simp] theorem release_at_name (time : Int) (t : Task) : (release_at time t).name = t.name := by
  unfold release_at Task.release_job; split <;> rfl

@[simp] theorem init_at_name (t : Task) : (init_at t).name = t.name := by
  unfold init_at Task.start_job; split <;> rfl

@[simp] theorem run_at_name (rel : Bool) (i : Nat) (k : Int) (j : Nat) (t : Task) : (run_at rel i k j t).name = t.name := by
  unfold run_at; split <;> (try split) <;> simp

@[simp] theorem release_at_base_priority (time : Int) (t : Task) : (release_at time t).base_priority = t.base_priority := by
  unfold release_at Task.release_job; split <;> rfl

@[simp] theorem init_at_base_priority (t : Task) : (init_at t).base_priority = t.base_priority := by
  unfold init_at Task.start_job; split <;> rfl

@[simp] theorem run_at_base_priority (rel : Bool) (i : Nat) (k : Int) (j : Nat) (t : Task) : (run_at rel i k j t).base_priority = t.base_priority := by
  unfold run_at; split <;> (try split) <;> simp

@[simp] theorem release_at_period (time : Int) (t : Task) : (release_at time t).period = t.period := by
  unfold release_at Task.release_job; split <;> rfl

@[simp] theorem init_at_period (t : Task) : (init_at t).period = t.period := by
  unfold init_at Task.start_job; split <;> rfl

@[simp] theorem run_at_period (rel : Bool) (i : Nat) (k : Int) (j : Nat) (t : Task) : (run_at rel i k j t).period = t.period := by
  unfold run_at; split <;> (try split) <;> simp

@[simp] theorem release_at_wcet (time : Int) (t : Task) : (release_at time t).wcet = t.wcet := by
  unfold release_at Task.release_job; split <;> rfl

@[simp] theorem init_at_wcet (t : Task) : (init_at t).wcet = t.wcet := by
  unfold init_at Task.start_job; split <;> rfl

@[simp] theorem run_at_wcet (rel : Bool) (i : Nat) (k : Int) (j : Nat) (t : Task) : (run_at rel i k j t).wcet = t.wcet := by
  unfold run_at; split <;> (try split) <;> simp

@[simp] theorem release_at_release_time (time : Int) (t : Task) : (release_at time t).release_time = t.release_time := by
  unfold release_at Task.release_job; split <;> rfl

@[simp] theorem init_at_release_time (t : Task) : (init_at t).release_time = t.release_time := by
  unfold init_at Task.start_job; split <;> rfl

@[simp] theorem run_at_release_time (rel : Bool) (i : Nat) (k : Int) (j : Nat) (t : Task) : (run_at rel i k j t).release_time = t.release_time := by
  unfold run_at; split <;> (try split) <;> simp

@[simp] theorem release_at_mutex_start (time : Int) (t : Task) : (release_at time t).mutex_start = t.mutex_start := by
  unfold release_at Task.release_job; split <;> rfl

@[simp] theorem init_at_mutex_start (t : Task) : (init_at t).mutex_start = t.mutex_start := by
  unfold init_at Task.start_job; split <;> rfl

@[simp] theorem run_at_mutex_start (rel : Bool) (i : Nat) (k : Int) (j : Nat) (t : Task) : (run_at rel i k j t).mutex_start = t.mutex_start := by
  unfold run_at; split <;> (try split) <;> simp

@[simp] theorem release_at_mutex_dur (time : Int) (t : Task) : (release_at time t).mutex_dur = t.mutex_dur := by
  unfold release_at Task.release_job; split <;> rfl

@[simp] theorem init_at_mutex_dur (t : Task) : (init_at t).mutex_dur = t.mutex_dur := by
  unfold init_at Task.start_job; split <;> rfl

@[simp] theorem run_at_mutex_dur (rel : Bool) (i : Nat) (k : Int) (j : Nat) (t : Task) : (run_at rel i k j t).mutex_dur = t.mutex_dur := by
  unfold run_at; split <;> (try split) <;> simp

@[simp] theorem init_at_cur_priority (t : Task) : (init_at t).cur_priority = t.cur_priority := by
  unfold init_at Task.start_job; split <;> rfl

@[simp] theorem block_at_id (i h : Nat) (p : Int) (j : Nat) (t : Task) : (block_at i h p j t).id = t.id := by
  unfold block_at; simp only []; split <;> split <;> rfl

@[simp] theorem block_at_name (i h : Nat) (p : Int) (j : Nat) (t : Task) : (block_at i h p j t).name = t.name := by
  unfold block_at; simp only []; split <;> split <;> rfl

@[simp] theorem block_at_base_priority (i h : Nat) (p : Int) (j : Nat) (t : Task) : (block_at i h p j t).base_priority = t.base_priority := by
  unfold block_at; simp only []; split <;> split <;> rfl

@[simp] theorem block_at_period (i h : Nat) (p : Int) (j : Nat) (t : Task) : (block_at i h p j t).period = t.period := by
  unfold block_at; simp only []; split <;> split <;> rfl

@[simp] theorem block_at_wcet (i h : Nat) (p : Int) (j : Nat) (t : Task) : (block_at i h p j t).wcet = t.wcet := by
  unfold block_at; simp only []; split <;> split <;> rfl

@[simp] theorem block_at_release_time (i h : Nat) (p : Int) (j : Nat) (t : Task) : (block_at i h p j t).release_time = t.release_time := by
  unfold block_at; simp only []; split <;> split <;> rfl

@[simp] theorem block_at_mutex_start (i h : Nat) (p : Int) (j : Nat) (t : Task) : (block_at i h p j t).mutex_start = t.mutex_start := by
  unfold block_at; simp only []; split <;> split <;> rfl

@[simp] theorem block_at_mutex_dur (i h : Nat) (p : Int) (j : Nat) (t : Task) : (block_at i h p j t).mutex_dur = t.mutex_dur := by
  unfold block_at; simp only []; split <;> split <;> rfl

@[simp] theorem block_at_remaining (i h : Nat) (p : Int) (j : Nat) (t : Task) : (block_at i h p j t).remaining = t.remaining := by
  unfold block_at; simp only []; split <;> split <;> rfl

@[simp] theorem block_at_exec_progress (i h : Nat) (p : Int) (j : Nat) (t : Task) : (block_at i h p j t).exec_progress = t.exec_progress := by
  unfold block_at; simp only []; split <;> split <;> rfl

theorem block_at_cur_priority (i h : Nat) (p : Int) (j : Nat) (t : Task) :
    (block_at i h p j t).cur_priority =
      if j = h ∧ t.cur_priority < p then p else t.cur_priority := by
  unfold block_at
  dsimp only
  split_ifs <;> rfl

theorem block_at_active (i h : Nat) (p : Int) (j : Nat) (t : Task) :
    (block_at i h p j t).active = if j = i then false else t.active := by
  unfold block_at
  dsimp only
  split_ifs <;> rfl

theorem run_at_cur_priority (rel : Bool) (i : Nat) (k : Int) (j : Nat) (t : Task) :
    (run_at rel i k j t).cur_priority =
      if j = i ∧ rel = true then t.base_priority else t.cur_priority := by
  unfold run_at
  by_cases c1 : j = i <;> cases rel <;> simp [c1]

theorem run_at_remaining (rel : Bool) (i : Nat) (k : Int) (j : Nat) (t : Task) :
    (run_at rel i k j t).remaining = if j = i then t.remaining - 1 else t.remaining := by
  unfold run_at
  by_cases c1 : j = i <;> cases rel <;> simp [c1]

theorem run_at_exec_progress (rel : Bool) (i : Nat) (k : Int) (j : Nat) (t : Task) :
    (run_at rel i k j t).exec_progress =
      if j = i then t.exec_progress + 1 else t.exec_progress := by
  unfold run_at
  by_cases c1 : j = i <;> cases rel <;> simp [c1]

theorem wake_at_active (k : Int) (t : Task) :
    (wake_at k t).active = if wake_cond k t = true then true else t.active := by
  unfold wake_at
  by_cases c : wake_cond k t = true <;> simp [c]

theorem run_at_active (rel : Bool) (i : Nat) (k : Int) (j : Nat) (t : Task) :
    (run_at rel i k j t).active =
      if j = i then (if t.remaining - 1 ≤ 0 then false else t.active)
      else if rel = true ∧ wake_cond k t = true then true else t.active := by
  unfold run_at
  by_cases c1 : j = i <;> cases rel <;> simp [c1, wake_at_active]

theorem release_at_cur_priority (time : Int) (t : Task) :
    (release_at time t).cur_priority =
      if time = t.release_time ∧ time ≠ 0 then t.base_priority else t.cur_priority := by
  unfold release_at Task.release_job; split <;> rfl

theorem release_at_remaining (time : Int) (t : Task) :
    (release_at time t).remaining =
      if time = t.release_time ∧ time ≠ 0 then t.wcet else t.remaining := by
  unfold release_at Task.release_job; split <;> rfl

theorem release_at_exec_progress (time : Int) (t : Task) :
    (release_at time t).exec_progress =
      if time = t.release_time ∧ time ≠ 0 then 0 else t.exec_progress := by
  unfold release_at Task.release_job; split <;> rfl

theorem release_at_active (time : Int) (t : Task) :
    (release_at time t).active =
      if time = t.release_time ∧ time ≠ 0 then true else t.active := by
  unfold release_at Task.release_job; split <;> rfl

theorem release_at_of_not (time : Int) (t : Task)
    (h : ¬ (time = t.release_time ∧ time ≠ 0)) : release_at time t = t := by
  unfold release_at; rw [if_neg h]

/-! ## The dispatcher -/

theorem ready_iff (t : Task) : t.ready = true ↔ t.active = true ∧ 0 < t.remaining := by
  simp [Task.ready]

theorem skip_iff (t : Task) : (!t.active || decide (t.remaining ≤ 0)) = true ↔ t.ready = false := by
  cases h : t.active <;> simp [Task.ready, h]

/-- Result of the dispatcher loop: either the incoming `best` survives and no
Ready task beats `best_prio`, or the loop stops on the first Ready task of
maximal priority, which beats `best_prio`. -/
theorem pick_loop_spec (ts : List Task) : ∀ (i : Nat) (best bp : Int),
    (pick_loop ts i best bp = best ∧ ∀ t ∈ ts, t.ready = true → t.cur_priority ≤ bp) ∨
    (∃ (k : Nat) (t : Task), ts[k]? = some t ∧ pick_loop ts i best bp = ((i + k : Nat) : Int) ∧
      t.ready = true ∧ bp < t.cur_priority ∧
      (∀ (j : Nat) (u : Task), ts[j]? = some u → u.ready = true → u.cur_priority ≤ t.cur_priority) ∧
      (∀ (j : Nat) (u : Task), j < k → ts[j]? = some u → u.ready = true → u.cur_priority < t.cur_priority)) := by
  induction ts with
  | nil => intro i best bp; left; simp [pick_loop]
  | cons t ts ih =>
    intro i best bp
    by_cases hr : t.ready = true
    · have hs : ¬ ((!t.active || decide (t.remaining ≤ 0)) = true) := by
        rw [skip_iff]; simp [hr]
      by_cases hp : t.cur_priority > bp
      · have e : pick_loop (t :: ts) i best bp = pick_loop ts (i + 1) (i : Int) t.cur_priority := by
          simp only [pick_loop]; rw [if_neg hs, if_pos hp]
        rw [e]
        rcases ih (i + 1) (i : Int) t.cur_priority with ⟨h1, h2⟩ | ⟨k, u, hk, h1, h2, h3, h4, h5⟩
        · right
          refine ⟨0, t, by simp, by simpa using h1, hr, hp, ?_, ?_⟩
          · intro j u hj hu
            cases j with
            | zero => simp at hj; subst hj; exact le_refl _
            | succ j => simp at hj; exact h2 u (List.getElem?_mem hj) hu
          · intro j u hj; omega
        · right
          refine ⟨k + 1, u, by simpa using hk, ?_, h2, lt_trans hp h3, ?_, ?_⟩
          · rw [h1]; push_cast; ring
          · intro j v hj hv
            cases j with
            | zero => simp at hj; subst hj; exact le_of_lt h3
            | succ j => simp at hj; exact h4 j v hj hv
          · intro j v hjk hj hv
            cases j with
            | zero => simp at hj; subst hj; exact h3
            | succ j => simp at hj; exact h5 j v (by omega) hj hv
      · have e : pick_loop (t :: ts) i best bp = pick_loop ts (i + 1) best bp := by
          simp only [pick_loop]; rw [if_neg hs, if_neg hp]
        rw [e]
        have hp2 : t.cur_priority ≤ bp := not_lt.mp hp
        rcases ih (i + 1) best bp with ⟨h1, h2⟩ | ⟨k, u, hk, h1, h2, h3, h4, h5⟩
        · left
          refine ⟨h1, ?_⟩
          intro v hv hvr
          rcases List.mem_cons.mp hv with rfl | hv
          · exact hp2
          · exact h2 v hv hvr
        · right
          refine ⟨k + 1, u, by simpa using hk, ?_, h2, h3, ?_, ?_⟩
          · rw [h1]; push_cast; ring
          · intro j v hj hv
            cases j with
            | zero => simp at hj; subst hj; exact le_of_lt (lt_of_le_of_lt hp2 h3)
            | succ j => simp at hj; exact h4 j v hj hv
          · intro j v hjk hj hv
            cases j with
            | zero => simp at hj; subst hj; exact lt_of_le_of_lt hp2 h3
            | succ j => simp at hj; exact h5 j v (by omega) hj hv
    · have hs : (!t.active || decide (t.remaining ≤ 0)) = true := by
        rw [skip_iff]; simpa using hr
      have e : pick_loop (t :: ts) i best bp = pick_loop ts (i + 1) best bp := by
        simp only [pick_loop]; rw [if_pos hs]
      rw [e]
      rcases ih (i + 1) best bp with ⟨h1, h2⟩ | ⟨k, u, hk, h1, h2, h3, h4, h5⟩
      · left
        refine ⟨h1, ?_⟩
        intro v hv hvr
        rcases List.mem_cons.mp hv with rfl | hv
        · exact absurd hvr hr
        · exact h2 v hv hvr
      · right
        refine ⟨k + 1, u, by simpa using hk, ?_, h2, h3, ?_, ?_⟩
        · rw [h1]; push_cast; ring
        · intro j v hj hv
          cases j with
          | zero => simp at hj; subst hj; exact absurd hv hr
          | succ j => simp at hj; exact h4 j v hj hv
        · intro j v hjk hj hv
          cases j with
          | zero => simp at hj; subst hj; exact absurd hv hr
          | succ j => simp at hj; exact h5 j v (by omega) hj hv

/-- The dispatcher returns `-1` with no Ready task of priority above `-1`,
or else the position of the first Ready task of maximal priority. -/
theorem pick_task_spec (tasks : List Task) :
    (pick_task tasks = -1 ∧ ∀ t ∈ tasks, t.ready = true → t.cur_priority ≤ -1) ∨
    (∃ (k : Nat) (t : Task), tasks[k]? = some t ∧ pick_task tasks = (k : Int) ∧
      t.ready = true ∧ -1 < t.cur_priority ∧
      (∀ (j : Nat) (u : Task), tasks[j]? = some u → u.ready = true → u.cur_priority ≤ t.cur_priority) ∧
      (∀ (j : Nat) (u : Task), j < k → tasks[j]? = some u → u.ready = true → u.cur_priority < t.cur_priority)) := by
  rcases pick_loop_spec tasks 0 (-1) (-1) with h | ⟨k, t, hk, h1, h2⟩
  · left; exact h
  · right; exact ⟨k, t, hk, by simpa [pick_task] using h1, h2⟩

/-- C2. Dispatcher selection: when all priorities are non-negative and some
task is Ready, `pick_task` returns the position of a Ready task whose
`cur_priority` is maximal among the Ready tasks; every Ready task tied with
it stands at the same or a later position, and has the same or a larger id
when the ids ascend along the list. -/
theorem pick_task_selects (tasks : List Task)
    (hnn : ∀ t ∈ tasks, 0 ≤ t.cur_priority)
    (hex : ∃ t ∈ tasks, t.ready = true) :
    ∃ (k : Nat) (t : Task), pick_task tasks = (k : Int) ∧ tasks[k]? = some t ∧
      t.ready = true ∧
      (∀ u ∈ tasks, u.ready = true → u.cur_priority ≤ t.cur_priority) ∧
      (∀ (j : Nat) (u : Task), tasks[j]? = some u → u.ready = true →
        u.cur_priority = t.cur_priority → k ≤ j) ∧
      (tasks.Pairwise (fun a b => a.id < b.id) →
        ∀ u ∈ tasks, u.ready = true → u.cur_priority = t.cur_priority → t.id ≤ u.id) := by
  rcases pick_task_spec tasks with ⟨_, h2⟩ | ⟨k, t, hk, h1, h2, h3, h4, h5⟩
  · obtain ⟨t, ht, hr⟩ := hex
    have := h2 t ht hr
    have := hnn t ht
    omega
  · have tie : ∀ (j : Nat) (u : Task), tasks[j]? = some u → u.ready = true →
        u.cur_priority = t.cur_priority → k ≤ j := by
      intro j u hj hu he
      by_contra hlt
      have := h5 j u (by omega) hj hu
      omega
    refine ⟨k, t, h1, hk, h2, ?_, tie, ?_⟩
    · intro u hu hur
      obtain ⟨j, hj⟩ := List.getElem?_of_mem hu
      exact h4 j u hj hur
    · intro hp u hu hur he
      obtain ⟨j, hj⟩ := List.getElem?_of_mem hu
      have hkj := tie j u hj hur he
      rcases Nat.lt_or_eq_of_le hkj with hlt | heq
      · obtain ⟨hk1, hk2⟩ := List.getElem?_eq_some.mp hk
        obtain ⟨hj1, hj2⟩ := List.getElem?_eq_some.mp hj
        have := List.pairwise_iff_getElem.mp hp k j hk1 hj1 hlt
        rw [hk2, hj2] at this
        exact le_of_lt this
      · subst heq
        rw [hk] at hj
        cases hj
        exact le_refl _

/-- Witness for `pick_task_selects`: the hardcoded task set after the
initial release pass, where only `Low` is Ready. -/
theorem pick_task_selects_witness :
    (∀ t ∈ (start demo).tasks, 0 ≤ t.cur_priority) ∧
    (∃ t ∈ (start demo).tasks, t.ready = true) ∧
    ∃ (k : Nat) (t : Task), pick_task (start demo).tasks = (k : Int) ∧
      (start demo).tasks[k]? = some t ∧ t.ready = true ∧
      (∀ u ∈ (start demo).tasks, u.ready = true → u.cur_priority ≤ t.cur_priority) ∧
      (∀ (j : Nat) (u : Task), (start demo).tasks[j]? = some u → u.ready = true →
        u.cur_priority = t.cur_priority → k ≤ j) ∧
      ((start demo).tasks.Pairwise (fun a b => a.id < b.id) →
        ∀ u ∈ (start demo).tasks, u.ready = true → u.cur_priority = t.cur_priority →
          t.id ≤ u.id) :=
  ⟨by decide, by decide, pick_task_selects (start demo).tasks (by decide) (by decide)⟩

/-- C3, as stated, fails: a Ready task of priority `-1` is never selected,
so `pick_task` answers `-1` although a task is Ready. -/
theorem pick_task_idle_counterexample :
    ¬ (∀ tasks : List Task, pick_task tasks = -1 ↔ ∀ t ∈ tasks, t.ready = false) := by
  intro h
  have h1 : pick_task negative_ready = -1 := by decide
  have h2 := (h negative_ready).mp h1
  have h3 := h2 _ (List.mem_singleton.mpr rfl)
  exact absurd h3 (by decide)

/-- C3, amended. Dispatcher idle sentinel: when every Ready task has a
non-negative `cur_priority`, `pick_task` returns `-1` if and only if no task
is Ready. -/
theorem pick_task_idle_iff (tasks : List Task)
    (hnn : ∀ t ∈ tasks, t.ready = true → 0 ≤ t.cur_priority) :
    pick_task tasks = -1 ↔ ∀ t ∈ tasks, t.ready = false := by
  rcases pick_task_spec tasks with ⟨h1, h2⟩ | ⟨k, t, hk, h1, h2, _⟩
  · refine ⟨fun _ t ht => ?_, fun _ => h1⟩
    by_contra hr
    have hr2 : t.ready = true := by simpa using hr
    have := h2 t ht hr2
    have := hnn t ht hr2
    omega
  · constructor
    · intro h
      rw [h1] at h
      omega
    · intro h
      have := h t (List.getElem?_mem hk)
      rw [h2] at this
      cases this

/-- Witness for `pick_task_idle_iff`: the hardcoded task set before any
release, where nothing is Ready. -/
theorem pick_task_idle_iff_witness :
    pick_task (demo.map build) = -1 ↔ ∀ t ∈ demo.map build, t.ready = false :=
  pick_task_idle_iff (demo.map build) (by decide)

/-! ## The loops, record by record -/

theorem init_release_tasks (ts : List Task) : ∀ logs : List String,
    (init_release ts logs).1 = ts.map init_at := by
  induction ts with
  | nil => intro logs; rfl
  | cons t ts ih =>
    intro logs
    by_cases h : t.release_time = 0
    · simp [init_release, init_at, h, ih]
    · simp [init_release, init_at, h, ih]

theorem releases_tasks (time : Int) (ts : List Task) : ∀ logs : List String,
    (releases time ts logs).1 = ts.map (release_at time) := by
  induction ts with
  | nil => intro logs; rfl
  | cons t ts ih =>
    intro logs
    by_cases h : time = t.release_time ∧ time ≠ 0
    · simp only [releases, release_at, if_pos h, List.map_cons, ih]
    · simp only [releases, release_at, if_neg h, List.map_cons, ih]

theorem wake_loop_tasks (time tkid : Int) (ts : List Task) : ∀ logs : List String,
    (wake_loop time tkid ts logs).1 = ts.map (wake_at tkid) := by
  induction ts with
  | nil => intro logs; rfl
  | cons t ts ih =>
    intro logs
    by_cases h : wake_cond tkid t = true
    · simp only [wake_loop, wake_at, if_pos h, List.map_cons, ih]
    · simp only [wake_loop, wake_at, if_neg h, List.map_cons, ih]

theorem after_releases_tasks (time : Int) (s : Sim) :
    (after_releases time s).tasks = s.tasks.map (release_at time) := by
  simp [after_releases, releases_tasks]

theorem after_releases_mu (time : Int) (s : Sim) : (after_releases time s).mu = s.mu := rfl

theorem start_tasks (cfg : List TaskSpec) : (start cfg).tasks = (cfg.map build).map init_at := by
  simp [start, init_release_tasks]

theorem start_mu (cfg : List TaskSpec) : (start cfg).mu.holder_id = -1 := rfl

theorem getElem?_set_at (l : List Task) (i : Nat) (tk : Task) (f : Task → Task)
    (h : l[i]? = some tk) (j : Nat) :
    (l.set i (f tk))[j]? = (l[j]?).map (fun t => if j = i then f t else t) := by
  obtain ⟨hi, _⟩ := List.getElem?_eq_some.mp h
  rw [List.getElem?_set]
  by_cases hji : i = j
  · subst hji; simp [hi, h]
  · have : ¬ j = i := fun e => hji e.symm
    simp [hji, this]

theorem log_event_extends (logs : List String) (t : Int) (m : String) :
    logs <+: log_event logs t m := by
  simp [log_event]

theorem wake_loop_logs (time tkid : Int) (ts : List Task) : ∀ logs : List String,
    logs <+: (wake_loop time tkid ts logs).2 := by
  induction ts with
  | nil => intro logs; exact List.prefix_refl _
  | cons t ts ih =>
    intro logs
    by_cases h : wake_cond tkid t = true
    · simp only [wake_loop, if_pos h]
      exact (log_event_extends _ _ _).trans (ih _)
    · simp only [wake_loop, if_neg h]
      exact ih _

theorem releases_logs (time : Int) (ts : List Task) : ∀ logs : List String,
    logs <+: (releases time ts logs).2 := by
  induction ts with
  | nil => intro logs; exact List.prefix_refl _
  | cons t ts ih =>
    intro logs
    by_cases h : time = t.release_time ∧ time ≠ 0
    · simp only [releases, if_pos h]
      exact (log_event_extends _ _ _).trans (ih _)
    · simp only [releases, if_neg h]
      exact ih _

/-- The completion check is defined on a valid position; it touches that
record only. -/
theorem complete_spec (time : Int) (i : Nat) (s : Sim) (tk : Task)
    (h : s.tasks[i]? = some tk) :
    ∃ s', complete time i s = some s' ∧ s'.mu = s.mu ∧ s.logs <+: s'.logs ∧
      ∀ j : Nat, s'.tasks[j]? = (s.tasks[j]?).map (fun t => if j = i then t.finish else t) := by
  unfold complete
  rw [h]
  by_cases hr : tk.remaining ≤ 0
  · refine ⟨{ s with tasks := s.tasks.set i { tk with active := false },
                      logs := log_event s.logs time (tk.name ++ " completed job") },
      by simp only [if_pos hr], rfl, log_event_extends _ _ _, ?_⟩
    intro j
    have := getElem?_set_at s.tasks i tk Task.finish h j
    simp only [Task.finish, if_pos hr] at this
    exact this
  · refine ⟨s, by simp only [if_neg hr], rfl, List.prefix_refl _, ?_⟩
    intro j
    by_cases hj : j = i
    · subst hj; simp [h, Task.finish, hr]
    · simp [hj]

theorem wake_at_self (tk : Task) : wake_at tk.id tk = tk := by
  simp [wake_at, wake_cond]

/-- Lines 127-154 are defined on a valid position, and act record by record
as `run_at` says. -/
theorem run_spec (time : Int) (i : Nat) (s : Sim) (tk0 : Task)
    (h0 : s.tasks[i]? = some tk0) :
    ∃ s', run time i s = some s' ∧
      s'.mu = (if release_cond tk0.exec s.mu then { holder_id := -1 } else s.mu) ∧
      s.logs <+: s'.logs ∧
      ∀ j : Nat, s'.tasks[j]? =
        (s.tasks[j]?).map (run_at (decide (release_cond tk0.exec s.mu)) i tk0.id j) := by
  unfold run
  rw [h0]
  by_cases hr : release_cond tk0.exec s.mu
  · have hr' : release_cond
        { tk0 with remaining := tk0.remaining - 1, exec_progress := tk0.exec_progress + 1 }
        s.mu := hr
    simp only [if_pos hr']
    have hset := getElem?_set_at s.tasks i tk0 (fun t => t.exec.restore) h0
    have hi : ((wake_loop time tk0.id (s.tasks.set i tk0.exec.restore)
        (log_event (log_event s.logs time
          (tk0.name ++ " running (remaining=" ++ toString (tk0.remaining - 1) ++ ")")) time
          (tk0.name ++ " released mutex"))).1)[i]? = some tk0.exec.restore := by
      rw [wake_loop_tasks, List.getElem?_map, hset i]
      simp only [h0, Option.map_some', if_true]
      have := wake_at_self tk0.exec.restore
      simpa [Task.exec, Task.restore] using this
    obtain ⟨s', e, hmu, hlog, hpt⟩ := complete_spec time i
      { tasks := (wake_loop time tk0.id (s.tasks.set i tk0.exec.restore)
          (log_event (log_event s.logs time
            (tk0.name ++ " running (remaining=" ++ toString (tk0.remaining - 1) ++ ")")) time
            (tk0.name ++ " released mutex"))).1,
        mu := { holder_id := -1 },
        logs := (wake_loop time tk0.id (s.tasks.set i tk0.exec.restore)
          (log_event (log_event s.logs time
            (tk0.name ++ " running (remaining=" ++ toString (tk0.remaining - 1) ++ ")")) time
            (tk0.name ++ " released mutex"))).2 } tk0.exec.restore hi
    refine ⟨s', e, by simpa [hr] using hmu, ?_, ?_⟩
    · exact ((log_event_extends _ _ _).trans (log_event_extends _ _ _)).trans
        ((wake_loop_logs _ _ _ _).trans hlog)
    · intro j
      rw [hpt j]
      simp only [wake_loop_tasks, List.getElem?_map, hset j, Option.map_map]
      by_cases hj : j = i
      · subst hj
        have hw : wake_at tk0.id tk0.exec.restore = tk0.exec.restore :=
          wake_at_self tk0.exec.restore
        simp [h0, run_at, hr, hw]
      · congr 1
        funext t
        simp [Function.comp, hj, run_at, hr]
  · have hr' : ¬ release_cond
        { tk0 with remaining := tk0.remaining - 1, exec_progress := tk0.exec_progress + 1 }
        s.mu := hr
    simp only [if_neg hr']
    have hset := getElem?_set_at s.tasks i tk0 Task.exec h0
    have hi : (s.tasks.set i tk0.exec)[i]? = some tk0.exec := by
      rw [hset i]; simp [h0]
    obtain ⟨s', e, hmu, hlog, hpt⟩ := complete_spec time i
      { s with tasks := s.tasks.set i tk0.exec,
               logs := log_event s.logs time
                (tk0.name ++ " running (remaining=" ++ toString (tk0.remaining - 1) ++ ")") }
      tk0.exec hi
    refine ⟨s', e, by simpa [hr] using hmu, (log_event_extends _ _ _).trans hlog, ?_⟩
    intro j
    rw [hpt j]
    simp only [hset j, Option.map_map]
    congr 1
    funext t
    by_cases hj : j = i
    · simp [Function.comp, hj, run_at, hr]
    · simp [Function.comp, hj, run_at, hr]

/-- Lines 112-123 are defined exactly when `mu.holder_id` is a valid
position, and then act record by record as `block_at` says. -/
theorem block_spec (time : Int) (i : Nat) (s : Sim) (tk ht : Task)
    (h0 : s.tasks[i]? = some tk) (hh : 0 ≤ s.mu.holder_id)
    (h1 : s.tasks[s.mu.holder_id.toNat]? = some ht) :
    ∃ s', block time i s = some s' ∧ s'.mu = s.mu ∧ s.logs <+: s'.logs ∧
      ∀ j : Nat, s'.tasks[j]? =
        (s.tasks[j]?).map (block_at i s.mu.holder_id.toNat tk.cur_priority j) := by
  unfold block
  rw [h0]
  simp only [if_neg (not_lt.mpr hh), h1]
  obtain ⟨hi0, _⟩ := List.getElem?_eq_some.mp h0
  obtain ⟨hh0, _⟩ := List.getElem?_eq_some.mp h1
  by_cases hp : ht.cur_priority < tk.cur_priority
  · simp only [if_pos hp]
    have hih : ¬ (s.mu.holder_id.toNat = i) := by
      intro e
      rw [e, h0] at h1
      cases h1
      exact lt_irrefl _ hp
    have hi : (s.tasks.set s.mu.holder_id.toNat
        { ht with cur_priority := tk.cur_priority })[i]? = some tk := by
      rw [List.getElem?_set_ne hih]; exact h0
    rw [hi]
    refine ⟨_, rfl, rfl, (log_event_extends _ _ _).trans (log_event_extends _ _ _), ?_⟩
    intro j
    show ((s.tasks.set s.mu.holder_id.toNat _).set i _)[j]? = _
    by_cases hji : j = i
    · subst hji
      have hjh : ¬ (j = s.mu.holder_id.toNat) := fun e => hih e.symm
      simp [List.getElem?_set, hi0, h0, block_at, hjh]
    · have hij : ¬ (i = j) := fun e => hji e.symm
      rw [List.getElem?_set_ne hij]
      by_cases hjh : j = s.mu.holder_id.toNat
      · subst hjh
        simp [List.getElem?_set, hh0, h1, block_at, hp, hji]
      · have hhj : ¬ (s.mu.holder_id.toNat = j) := fun e => hjh e.symm
        rw [List.getElem?_set_ne hhj]
        cases s.tasks[j]? <;> simp [block_at, hji, hjh]
  · simp only [if_neg hp]
    rw [h0]
    refine ⟨_, rfl, rfl, log_event_extends _ _ _, ?_⟩
    intro j
    show (s.tasks.set i _)[j]? = _
    by_cases hji : j = i
    · subst hji
      by_cases hjh : j = s.mu.holder_id.toNat
      · have : ht = tk := by rw [← hjh, h0] at h1; cases h1; rfl
        subst this
        simp [List.getElem?_set, hi0, h0, block_at]
      · simp [List.getElem?_set, hi0, h0, block_at, hjh]
    · have hij : ¬ (i = j) := fun e => hji e.symm
      rw [List.getElem?_set_ne hij]
      by_cases hjh : j = s.mu.holder_id.toNat
      · subst hjh
        simp [h1, block_at, hp, hji]
      · cases s.tasks[j]? <;> simp [block_at, hji, hjh]

/-- Lines 112-123 index out of range when `mu.holder_id` is not a valid
position. -/
theorem block_undefined (time : Int) (i : Nat) (s : Sim)
    (h : s.mu.holder_id < 0 ∨ s.tasks[s.mu.holder_id.toNat]? = none) :
    block time i s = none := by
  unfold block
  cases h0 : s.tasks[i]? with
  | none => rfl
  | some tk =>
    rcases h with h | h
    · simp [h]
    · by_cases hlt : s.mu.holder_id < 0
      · simp [hlt]
      · simp [hlt, h]

/-- What the dispatcher hands to the rest of the tick: `-1`, or a valid
position holding a Ready task. -/
theorem pick_task_cases (tasks : List Task) :
    pick_task tasks = -1 ∨
    ∃ (i : Nat) (tk : Task), pick_task tasks = (i : Int) ∧ tasks[i]? = some tk ∧
      tk.ready = true := by
  rcases pick_task_spec tasks with ⟨h, _⟩ | ⟨k, t, hk, h1, h2, _⟩
  · exact Or.inl h
  · exact Or.inr ⟨k, t, h1, hk, h2⟩

theorem step_idle (time : Int) (s : Sim) (h : pick_task s.tasks = -1) :
    step time s = some s := by
  simp [step, h]

theorem step_block (time : Int) (s : Sim) (i : Nat) (tk : Task)
    (hp : pick_task s.tasks = (i : Int)) (h0 : s.tasks[i]? = some tk) (hb : blocks s tk) :
    step time s = block time i s := by
  have hne : ¬ ((i : Int) = -1) := by omega
  obtain ⟨h1, h2, h3⟩ := hb
  simp [step, hp, hne, h0, h1, h2, h3]

theorem step_run (time : Int) (s : Sim) (i : Nat) (tk : Task)
    (hp : pick_task s.tasks = (i : Int)) (h0 : s.tasks[i]? = some tk) (hb : ¬ blocks s tk) :
    step time s = run time i
      { s with mu := mu_after_request s tk,
               logs := if tk.requesting ∧ s.mu.holder_id = -1 then
                 log_event s.logs time (tk.name ++ " acquired mutex") else s.logs } := by
  have hne : ¬ ((i : Int) = -1) := by omega
  unfold step
  simp only [hp, hne, if_false, Int.toNat_ofNat, h0]
  by_cases hr : tk.requesting
  · by_cases hh : s.mu.holder_id = -1
    · simp [hr, hh, mu_after_request]
    · have hid : s.mu.holder_id = tk.id := by
        by_contra hne2
        exact hb ⟨hr, hh, hne2⟩
      have e : ({ s with mu := mu_after_request s tk, logs := s.logs } : Sim) = s := by
        simp [mu_after_request, hh]
      have hh2 : ¬ (tk.id = -1) := by rw [← hid]; exact hh
      simp [hr, hh, hid, mu_after_request, hh2]
  · have e : ({ s with mu := mu_after_request s tk, logs := s.logs } : Sim) = s := by
      simp [mu_after_request, hr]
    simp [hr, e]

/-- The three ways a defined `step` can go: idle, block, or run. -/
theorem step_cases (time : Int) (s s' : Sim) (h : step time s = some s') :
    s.logs <+: s'.logs ∧
    ((pick_task s.tasks = -1 ∧ s' = s) ∨
     ∃ (i : Nat) (tk : Task), pick_task s.tasks = (i : Int) ∧ s.tasks[i]? = some tk ∧
       tk.ready = true ∧
       ((blocks s tk ∧ 0 ≤ s.mu.holder_id ∧ s.mu.holder_id.toNat < s.tasks.length ∧
          s'.mu = s.mu ∧
          ∀ j : Nat, s'.tasks[j]? =
            (s.tasks[j]?).map (block_at i s.mu.holder_id.toNat tk.cur_priority j)) ∨
        (¬ blocks s tk ∧
          s'.mu = (if release_cond tk.exec (mu_after_request s tk) then { holder_id := -1 }
                   else mu_after_request s tk) ∧
          ∀ j : Nat, s'.tasks[j]? =
            (s.tasks[j]?).map
              (run_at (decide (release_cond tk.exec (mu_after_request s tk))) i tk.id j)))) := by
  rcases pick_task_cases s.tasks with hp | ⟨i, tk, hp, h0, hr⟩
  · rw [step_idle time s hp] at h
    cases h
    exact ⟨List.prefix_refl _, Or.inl ⟨hp, rfl⟩⟩
  · by_cases hb : blocks s tk
    · rw [step_block time s i tk hp h0 hb] at h
      by_cases hh : s.mu.holder_id < 0
      · rw [block_undefined time i s (Or.inl hh)] at h; cases h
      · cases h1 : s.tasks[s.mu.holder_id.toNat]? with
        | none => rw [block_undefined time i s (Or.inr h1)] at h; cases h
        | some ht =>
          obtain ⟨s2, e, hmu, hlog, hpt⟩ := block_spec time i s tk ht h0 (not_lt.mp hh) h1
          rw [e] at h
          cases h
          obtain ⟨hlt, _⟩ := List.getElem?_eq_some.mp h1
          exact ⟨hlog, Or.inr ⟨i, tk, hp, h0, hr, Or.inl ⟨hb, not_lt.mp hh, hlt, hmu, hpt⟩⟩⟩
    · rw [step_run time s i tk hp h0 hb] at h
      obtain ⟨s2, e, hmu, hlog, hpt⟩ := run_spec time i
        { s with mu := mu_after_request s tk,
                 logs := if tk.requesting ∧ s.mu.holder_id = -1 then
                   log_event s.logs time (tk.name ++ " acquired mutex") else s.logs } tk h0
      rw [e] at h
      cases h
      refine ⟨?_, Or.inr ⟨i, tk, hp, h0, hr, Or.inr ⟨hb, hmu, hpt⟩⟩⟩
      refine List.IsPrefix.trans ?_ hlog
      show s.logs <+: (if tk.requesting ∧ s.mu.holder_id = -1 then
                   log_event s.logs time (tk.name ++ " acquired mutex") else s.logs)
      split
      · exact log_event_extends _ _ _
      · exact List.prefix_refl _

/-- The step is defined as soon as a blocking task finds a valid position
in `mu.holder_id`. -/
theorem step_defined (time : Int) (s : Sim)
    (hv : ∀ (i : Nat) (tk : Task), pick_task s.tasks = (i : Int) → s.tasks[i]? = some tk →
      blocks s tk → 0 ≤ s.mu.holder_id ∧ s.mu.holder_id.toNat < s.tasks.length) :
    ∃ s', step time s = some s' := by
  rcases pick_task_cases s.tasks with hp | ⟨i, tk, hp, h0, _⟩
  · exact ⟨s, step_idle time s hp⟩
  · by_cases hb : blocks s tk
    · obtain ⟨hh, hlt⟩ := hv i tk hp h0 hb
      obtain ⟨s2, e, _⟩ := block_spec time i s tk _ h0 hh (List.getElem?_eq_getElem hlt)
      exact ⟨s2, by rw [step_block time s i tk hp h0 hb]; exact e⟩
    · obtain ⟨s2, e, _⟩ := run_spec time i
        { s with mu := mu_after_request s tk,
                 logs := if tk.requesting ∧ s.mu.holder_id = -1 then
                   log_event s.logs time (tk.name ++ " acquired mutex") else s.logs } tk h0
      exact ⟨s2, by rw [step_run time s i tk hp h0 hb]; exact e⟩

/-- The bytes of a concatenation. -/
theorem bytes_append (a b : String) :
    (a ++ b).utf8ByteSize = a.utf8ByteSize + b.utf8ByteSize := by
  cases a with
  | mk as =>
    cases b with
    | mk bs =>
      show String.utf8ByteSize ⟨as ++ bs⟩ = _
      simp [String.utf8ByteSize_mk, String.utf8Len_append]

/-- A message whose line fits `buf[64]` of `log_event` fits `evbuf[128]`. -/
theorem running_message_fits (t : Int) (m : String)
    (h : fits_buffer (fmt04 t ++ " ms: " ++ m) = true) : m.utf8ByteSize < 128 := by
  simp only [fits_buffer, decide_eq_true_eq, bytes_append] at h
  omega

/-- A defined tick is a defined dispatch part whose new lines fit. -/
theorem tick_some (time : Int) (s s' : Sim) (h : tick time s = some s') :
    step time (after_releases time s) = some s' ∧
      lines_fit (s'.logs.drop s.logs.length) = true := by
  unfold tick at h
  cases e : step time (after_releases time s) with
  | none => rw [e] at h; cases h
  | some s1 =>
    rw [e] at h
    by_cases c : lines_fit (s1.logs.drop s.logs.length) = true
    · simp only [c, if_true, Option.some.injEq] at h
      subst h
      exact ⟨rfl, c⟩
    · simp only [c] at h
      cases h

theorem tick_of_step (time : Int) (s s' : Sim)
    (h : step time (after_releases time s) = some s')
    (hf : lines_fit (s'.logs.drop s.logs.length) = true) : tick time s = some s' := by
  unfold tick
  rw [h]
  simp only [hf, if_true]

theorem sim_at_zero (cfg : List TaskSpec) (s : Sim) (h : sim_at cfg 0 = some s) :
    s = start cfg ∧ lines_fit (start cfg).logs = true := by
  unfold sim_at at h
  by_cases c : lines_fit (start cfg).logs = true
  · simp only [c, if_true, Option.some.injEq] at h
    exact ⟨h.symm, c⟩
  · simp only [c] at h
    cases h

theorem tick_logs (time : Int) (s s' : Sim) (h : tick time s = some s') :
    s.logs <+: s'.logs := by
  have h1 := (step_cases time _ s' (tick_some time s s' h).1).1
  refine List.IsPrefix.trans ?_ h1
  exact releases_logs time s.tasks s.logs

theorem runs_at_eq (s : Sim) (i : Nat) :
    runs_at s = some i ↔
      pick_task s.tasks = (i : Int) ∧ ∃ tk, s.tasks[i]? = some tk ∧ ¬ blocks s tk := by
  unfold runs_at
  rcases pick_task_cases s.tasks with hp | ⟨k, tk, hp, h0, _⟩
  · simp only [hp, if_true]
    constructor
    · intro h; cases h
    · rintro ⟨h, _⟩; omega
  · have hne : ¬ ((k : Int) = -1) := by omega
    simp only [hp, hne, if_false, Int.toNat_ofNat, h0]
    constructor
    · intro h
      by_cases hb : blocks s tk
      · simp [hb] at h
      · simp [hb] at h
        subst h
        exact ⟨rfl, tk, h0, hb⟩
    · rintro ⟨h, tk2, h2, hb⟩
      have : k = i := by exact_mod_cast h
      subst this
      rw [h0] at h2
      cases h2
      simp [hb]

theorem releases_none (time : Int) (ts : List Task) (h : ∀ t ∈ ts, t.release_time ≠ time) :
    ∀ logs : List String, releases time ts logs = (ts, logs) := by
  induction ts with
  | nil => intro logs; rfl
  | cons t ts ih =>
    intro logs
    have h1 : ¬ (time = t.release_time ∧ time ≠ 0) := by
      rintro ⟨e, _⟩
      exact h t (List.mem_cons_self _ _) e.symm
    simp only [releases, if_neg h1]
    rw [ih (fun u hu => h u (List.mem_cons_of_mem _ hu))]

theorem pick_task_none (tasks : List Task) (h : ∀ t ∈ tasks, t.ready = false) :
    pick_task tasks = -1 := by
  rcases pick_task_spec tasks with ⟨h1, _⟩ | ⟨k, t, hk, _, h2, _⟩
  · exact h1
  · have := h t (List.getElem?_mem hk)
    rw [h2] at this
    cases this

/-- A tick in which no job is released and no task is Ready returns the
state it started from. -/
theorem tick_idle (time : Int) (s : Sim) (hr : ∀ t ∈ s.tasks, t.ready = false)
    (hn : ∀ t ∈ s.tasks, t.release_time ≠ time) : tick time s = some s := by
  have e : after_releases time s = s := by
    simp only [after_releases, releases_none time s.tasks hn s.logs]
  apply tick_of_step
  · rw [e]
    exact step_idle time s (pick_task_none s.tasks hr)
  · simp [lines_fit]

/-! ## Release of the mutex -/

/-- C4. Release and restore: in a tick that starts with the mutex held, the
holder becomes none if and only if the task that executes in this tick has
the id of the holder, has a critical section and reaches
`mutex_start + mutex_dur` with this millisecond; and then its `cur_priority`
equals its `base_priority` after the tick. -/
theorem release_iff (time : Int) (s s' : Sim) (h : tick time s = some s')
    (hold : s.mu.holder_id ≠ -1) :
    (s'.mu.holder_id = -1 ↔
      ∃ (i : Nat) (T : Task), runs_at (after_releases time s) = some i ∧
        s'.tasks[i]? = some T ∧ T.id = s.mu.holder_id ∧ T.mutex_start ≥ 0 ∧
        T.exec_progress = T.mutex_start + T.mutex_dur) ∧
    (s'.mu.holder_id = -1 →
      ∀ (i : Nat) (T : Task), runs_at (after_releases time s) = some i →
        s'.tasks[i]? = some T → T.cur_priority = T.base_priority) := by
  have hmu1 : (after_releases time s).mu = s.mu := rfl
  have hold1 : (after_releases time s).mu.holder_id ≠ -1 := hold
  obtain ⟨_, hc⟩ := step_cases time (after_releases time s) s' (tick_some time s s' h).1
  rcases hc with ⟨hp, e⟩ | ⟨i, tk, hp, h0, _, hb | hr⟩
  · subst e
    have hn : runs_at (after_releases time s) = none := by simp [runs_at, hp]
    constructor
    · constructor
      · intro h1; exact absurd h1 hold1
      · rintro ⟨i, T, hi, _⟩; rw [hn] at hi; cases hi
    · intro h1; exact absurd h1 hold1
  · obtain ⟨hb, _, _, hmu, _⟩ := hb
    have hn : runs_at (after_releases time s) = none := by
      simp [runs_at, hp, h0, hb]
    constructor
    · constructor
      · intro h1; rw [hmu] at h1; exact absurd h1 hold1
      · rintro ⟨i, T, hi, _⟩; rw [hn] at hi; cases hi
    · intro h1; rw [hmu] at h1; exact absurd h1 hold1
  · obtain ⟨hb, hmu, hpt⟩ := hr
    have hrun : runs_at (after_releases time s) = some i :=
      (runs_at_eq _ i).mpr ⟨hp, tk, h0, hb⟩
    have hmr : mu_after_request (after_releases time s) tk = s.mu := by
      simp only [mu_after_request, hmu1]
      rw [if_neg]
      rintro ⟨_, h2⟩
      exact hold h2
    rw [hmr] at hmu hpt
    have hT := hpt i
    rw [h0] at hT
    simp only [Option.map_some'] at hT
    by_cases hrel : release_cond tk.exec s.mu
    · simp only [hrel, if_true] at hmu
      simp only [hrel, decide_True, run_at, if_true] at hT
      obtain ⟨c1, c2, c3⟩ := hrel
      constructor
      · refine ⟨fun _ => ⟨i, _, hrun, hT, ?_, ?_, ?_⟩, fun _ => by rw [hmu]⟩
        · simpa using c3.symm
        · simpa using c1
        · simpa using c2
      · intro _ k T hk hkT
        rw [hrun] at hk
        cases hk
        rw [hT] at hkT
        cases hkT
        simp
    · simp only [hrel, if_false] at hmu
      have hne : s'.mu.holder_id ≠ -1 := by rw [hmu]; exact hold
      simp only [hrel, decide_False, run_at, if_true] at hT
      constructor
      · refine ⟨fun h1 => absurd h1 hne, ?_⟩
        rintro ⟨k, T, hk, hkT, d1, d2, d3⟩
        rw [hrun] at hk
        cases hk
        rw [hT] at hkT
        cases hkT
        exfalso
        apply hrel
        refine ⟨?_, ?_, ?_⟩
        · simpa using d2
        · simpa using d3
        · simpa using d1.symm
      · intro h1; exact absurd h1 hne

/-- Witness for `release_iff`: the holder executes the last millisecond of
its critical section. -/
theorem release_iff_witness :
    ∃ s', tick 1 holding_state = some s' ∧ holding_state.mu.holder_id ≠ -1 ∧
      (s'.mu.holder_id = -1 ↔
        ∃ (i : Nat) (T : Task), runs_at (after_releases 1 holding_state) = some i ∧
          s'.tasks[i]? = some T ∧
          T.id = holding_state.mu.holder_id ∧ T.mutex_start ≥ 0 ∧
          T.exec_progress = T.mutex_start + T.mutex_dur) ∧
      (s'.mu.holder_id = -1 →
        ∀ (i : Nat) (T : Task), runs_at (after_releases 1 holding_state) = some i →
          s'.tasks[i]? = some T → T.cur_priority = T.base_priority) :=
  ⟨(tick 1 holding_state).get rfl,
    (Option.some_get (rfl : (tick 1 holding_state).isSome = true)).symm, by decide,
    release_iff 1 holding_state ((tick 1 holding_state).get rfl)
      (Option.some_get (rfl : (tick 1 holding_state).isSome = true)).symm (by decide)⟩

/-! ## Invariants of every run -/

theorem static_init_at (t : Task) : (init_at t).static = t.static := by
  simp [Task.static]

theorem static_release_at (time : Int) (t : Task) : (release_at time t).static = t.static := by
  simp [Task.static]

theorem static_run_at (rel : Bool) (i : Nat) (k : Int) (j : Nat) (t : Task) :
    (run_at rel i k j t).static = t.static := by
  simp [Task.static]

theorem static_block_at (i h : Nat) (p : Int) (j : Nat) (t : Task) :
    (block_at i h p j t).static = t.static := by
  simp [Task.static]

theorem static_build (d : TaskSpec) : (build d).static = d := rfl

/-- Two task lists related record by record have the same static part. -/
theorem static_of_pointwise (l l' : List Task) (F : Nat → Task → Task)
    (hpt : ∀ j : Nat, l'[j]? = (l[j]?).map (F j))
    (hF : ∀ (j : Nat) (t : Task), (F j t).static = t.static) :
    l'.map Task.static = l.map Task.static := by
  apply List.ext_getElem?
  intro j
  rw [List.getElem?_map, List.getElem?_map, hpt j]
  cases l[j]? with
  | none => rfl
  | some t => simp [hF j t]

/-- A property of records passes from a list to a list obtained record by
record. -/
theorem forall_of_pointwise (P Q : Task → Prop) (l l' : List Task) (F : Nat → Task → Task)
    (hpt : ∀ j : Nat, l'[j]? = (l[j]?).map (F j))
    (hF : ∀ (j : Nat) (t : Task), l[j]? = some t → P t → Q (F j t))
    (hP : ∀ t ∈ l, P t) : ∀ t ∈ l', Q t := by
  intro t' ht'
  obtain ⟨j, hj⟩ := List.getElem?_of_mem ht'
  rw [hpt j] at hj
  cases h : l[j]? with
  | none => rw [h] at hj; cases hj
  | some t =>
    rw [h] at hj
    simp only [Option.map_some', Option.some.injEq] at hj
    rw [← hj]
    exact hF j t h (hP t (List.getElem?_mem h))

theorem task_inv_init (d : TaskSpec) : task_inv 0 (init_at (build d)) := by
  unfold task_inv init_at
  by_cases h : (build d).release_time = 0
  · simp only [if_pos h]
    refine ⟨le_refl _, le_refl _, fun hw => hw, fun _ => ?_, fun hn => ?_, fun hb => ?_⟩
    · simp [Task.start_job]
    · exact absurd (Or.inl h) hn
    · exact absurd hb.1 (by simp [Task.start_job])
  · simp only [if_neg h]
    refine ⟨le_refl _, le_refl _, fun _ => le_refl _, fun hr => ?_, fun _ => ⟨rfl, rfl, rfl⟩,
      fun hb => ?_⟩
    · rcases hr with hr | ⟨h1, h2⟩
      · exact absurd hr h
      · simp at h2; omega
    · exact absurd hb.2 (lt_irrefl _)

theorem task_inv_release (n : Nat) (t : Task) (h : task_inv n t) :
    task_inv (n + 1) (release_at (n : Int) t) := by
  obtain ⟨h1, h2, h3, h4, h5, h6⟩ := h
  unfold release_at
  by_cases hr : (n : Int) = t.release_time ∧ (n : Int) ≠ 0
  · simp only [if_pos hr]
    refine ⟨le_refl _, le_refl _, fun hw => hw, fun _ => ?_, fun hn => ?_, fun hb => ?_⟩
    · simp [Task.release_job]
    · exfalso
      apply hn
      right
      show 0 < t.release_time ∧ t.release_time < ((n + 1 : Nat) : Int)
      push_cast
      omega
    · exact absurd hb.1 (by simp [Task.release_job])
  · simp only [if_neg hr]
    have hmono : t.released (n + 1) → t.released n := by
      rintro (h0 | ⟨ha, hb⟩)
      · exact Or.inl h0
      · right
        push_cast at hb
        refine ⟨ha, ?_⟩
        by_contra hc
        apply hr
        constructor <;> omega
    have hmono2 : t.released n → t.released (n + 1) := by
      rintro (h0 | ⟨ha, hb⟩)
      · exact Or.inl h0
      · right
        push_cast
        exact ⟨ha, by omega⟩
    exact ⟨h1, h2, h3, fun hr1 => h4 (hmono hr1), fun hn => h5 (fun hr1 => hn (hmono2 hr1)), h6⟩

theorem task_inv_block (m : Nat) (i h : Nat) (p : Int) (j : Nat) (t : Task)
    (hi : j = i → t.requesting) (ht : task_inv m t) : task_inv m (block_at i h p j t) := by
  obtain ⟨h1, h2, h3, h4, h5, h6⟩ := ht
  have hrel : (block_at i h p j t).released m ↔ t.released m := by
    simp [Task.released]
  refine ⟨?_, by simpa using h2, by simpa using h3, ?_, ?_, ?_⟩
  · rw [block_at_cur_priority, block_at_base_priority]
    split
    · omega
    · exact h1
  · intro hr
    simpa using h4 (hrel.mp hr)
  · intro hn
    obtain ⟨a, b, c⟩ := h5 (fun hr => hn (hrel.mpr hr))
    refine ⟨by simpa using a, by simpa using b, ?_⟩
    rw [block_at_active]
    split
    · rfl
    · exact c
  · intro hb
    have hq : (block_at i h p j t).requesting ↔ t.requesting := by
      simp [Task.requesting]
    rw [hq]
    by_cases c2 : j = i
    · exact hi c2
    · apply h6
      obtain ⟨b1, b2⟩ := hb
      rw [block_at_active, if_neg c2] at b1
      exact ⟨b1, by simpa using b2⟩

theorem task_inv_run (m : Nat) (rel : Bool) (i : Nat) (k : Int) (j : Nat) (t : Task)
    (hi : j = i → t.ready = true) (ht : task_inv m t) : task_inv m (run_at rel i k j t) := by
  obtain ⟨h1, h2, h3, h4, h5, h6⟩ := ht
  have hrel : (run_at rel i k j t).released m ↔ t.released m := by
    simp [Task.released]
  by_cases c : j = i
  · obtain ⟨ra, rr⟩ := (ready_iff t).mp (hi c)
    have hrd : t.released m := by
      by_contra hn
      have := (h5 hn).1
      omega
    have e : run_at rel i k j t = (if rel then t.exec.restore else t.exec).finish := by
      simp [run_at, c]
    rw [e]
    cases rel
    · simp only [Bool.false_eq_true, if_false]
      refine ⟨by simpa using h1, by simp; omega, fun hw => by simp; omega,
        fun _ => by simp; have := h4 hrd; omega, fun hn => ?_, fun hb => ?_⟩
      · exact absurd (by simpa [Task.released] using hrd) hn
      · exfalso
        obtain ⟨b1, b2⟩ := hb
        simp at b1 b2
        have := b1 (by omega)
        rw [ra] at this
        cases this
    · simp only [if_true]
      refine ⟨by simp, by simp; omega, fun hw => by simp; omega,
        fun _ => by simp; have := h4 hrd; omega, fun hn => ?_, fun hb => ?_⟩
      · exact absurd (by simpa [Task.released] using hrd) hn
      · exfalso
        obtain ⟨b1, b2⟩ := hb
        simp at b1 b2
        have := b1 (by omega)
        rw [ra] at this
        cases this
  · have e : run_at rel i k j t = if rel then wake_at k t else t := by
      simp [run_at, c]
    rw [e]
    cases rel
    · simpa using ⟨h1, h2, h3, h4, h5, h6⟩
    · simp only [if_true]
      refine ⟨by simpa using h1, by simpa using h2, by simpa using h3, ?_, ?_, ?_⟩
      · intro hr
        simpa using h4 (by simpa [Task.released] using hr)
      · intro hn
        have hn' : ¬ t.released m := by simpa [Task.released] using hn
        obtain ⟨a, b, c3⟩ := h5 hn'
        refine ⟨by simpa using a, by simpa using b, ?_⟩
        have : wake_cond k t = false := by simp [wake_cond, a]
        simp [wake_at, this, c3]
      · intro hb
        obtain ⟨b1, b2⟩ := hb
        have hq : (wake_at k t).requesting ↔ t.requesting := by
          simp [Task.requesting]
        rw [hq]
        by_cases hw : wake_cond k t = true
        · simp [wake_at, hw] at b1
        · simp only [wake_at, hw] at b1
          exact h6 ⟨b1, by simpa using b2⟩

theorem sim_at_succ (cfg : List TaskSpec) (n : Nat) (s : Sim) :
    sim_at cfg (n + 1) = some s ↔ ∃ s0, sim_at cfg n = some s0 ∧ tick (n : Int) s0 = some s := by
  simp [sim_at, Option.bind_eq_some]

/-- The dispatch part of a tick keeps the per-record invariant and the
static fields. -/
theorem step_task_inv (m : Nat) (time : Int) (s s' : Sim) (h : step time s = some s')
    (hinv : ∀ t ∈ s.tasks, task_inv m t) :
    (∀ t ∈ s'.tasks, task_inv m t) ∧ s'.tasks.map Task.static = s.tasks.map Task.static := by
  obtain ⟨_, hc⟩ := step_cases time s s' h
  rcases hc with ⟨_, e⟩ | ⟨i, tk, _, h0, hrdy, hb | hr⟩
  · subst e; exact ⟨hinv, rfl⟩
  · obtain ⟨hb, _, _, _, hpt⟩ := hb
    refine ⟨forall_of_pointwise (task_inv m) (task_inv m) s.tasks s'.tasks _ hpt ?_ hinv,
      static_of_pointwise _ _ _ hpt (fun j t => static_block_at _ _ _ j t)⟩
    intro j t hj ht
    apply task_inv_block m _ _ _ j t _ ht
    intro e
    subst e
    rw [h0] at hj
    cases hj
    exact hb.1
  · obtain ⟨_, _, hpt⟩ := hr
    refine ⟨forall_of_pointwise (task_inv m) (task_inv m) s.tasks s'.tasks _ hpt ?_ hinv,
      static_of_pointwise _ _ _ hpt (fun j t => static_run_at _ _ _ j t)⟩
    intro j t hj ht
    apply task_inv_run m _ _ _ j t _ ht
    intro e
    subst e
    rw [h0] at hj
    cases hj
    exact hrdy

/-- After `n` iterations of the tick loop the records still carry the
descriptors they were built from, and every record satisfies `task_inv`. -/
theorem run_invariant (cfg : List TaskSpec) : ∀ (n : Nat) (s : Sim),
    sim_at cfg n = some s →
    s.tasks.map Task.static = cfg ∧ ∀ t ∈ s.tasks, task_inv n t := by
  intro n
  induction n with
  | zero =>
    intro s h
    obtain ⟨h, _⟩ := sim_at_zero cfg s h
    subst h
    rw [start_tasks]
    constructor
    · rw [List.map_map, List.map_map]
      conv_rhs => rw [← List.map_id cfg]
      apply List.map_congr_left
      intro d _
      simp [Function.comp, static_init_at, static_build]
    · intro t ht
      simp only [List.map_map, List.mem_map, Function.comp] at ht
      obtain ⟨d, _, rfl⟩ := ht
      exact task_inv_init d
  | succ n ih =>
    intro s h
    obtain ⟨s0, h0, ht⟩ := (sim_at_succ cfg n s).mp h
    obtain ⟨hs, hinv⟩ := ih s0 h0
    have h1 : ∀ t ∈ (after_releases (n : Int) s0).tasks, task_inv (n + 1) t := by
      intro t ht
      rw [after_releases_tasks] at ht
      obtain ⟨u, hu, rfl⟩ := List.mem_map.mp ht
      exact task_inv_release n u (hinv u hu)
    have h2 : (after_releases (n : Int) s0).tasks.map Task.static = cfg := by
      rw [after_releases_tasks, List.map_map, ← hs]
      apply List.map_congr_left
      intro t _
      simp [Function.comp, static_release_at]
    obtain ⟨h3, h4⟩ := step_task_inv (n + 1) (n : Int) _ s (tick_some _ _ _ ht).1 h1
    exact ⟨h4.trans h2, h3⟩

/-- C6. Priority floor: in every state the program goes through, whatever
the task set, every task has `cur_priority ≥ base_priority`. -/
theorem priority_floor (cfg : List TaskSpec) (s : Sim) (h : Reachable cfg s) :
    ∀ t ∈ s.tasks, t.base_priority ≤ t.cur_priority := by
  obtain ⟨n, _, hn⟩ := h
  intro t ht
  exact ((run_invariant cfg n s hn).2 t ht).1

/-- Witness for `priority_floor`: the state after the tick in which the low
task inherits the priority of the high task. -/
theorem priority_floor_witness :
    ∃ s, Reachable inversion_cfg s ∧ ∀ t ∈ s.tasks, t.base_priority ≤ t.cur_priority :=
  ⟨(sim_at inversion_cfg 2).get rfl,
    ⟨2, by decide, (Option.some_get _).symm⟩,
    priority_floor inversion_cfg _ ⟨2, by decide, (Option.some_get _).symm⟩⟩

/-- C10. Work bound: for a task set with non-negative `wcet` values, after
`n` iterations of the tick loop every task has `0 ≤ remaining` and
`0 ≤ exec_progress ≤ wcet`, and every task whose job has been released has
`remaining + exec_progress = wcet`. -/
theorem work_bound (cfg : List TaskSpec) (hw : ∀ d ∈ cfg, 0 ≤ d.wcet) (n : Nat) (s : Sim)
    (h : sim_at cfg n = some s) :
    ∀ t ∈ s.tasks, 0 ≤ t.remaining ∧ 0 ≤ t.exec_progress ∧ t.exec_progress ≤ t.wcet ∧
      (t.released n → t.remaining + t.exec_progress = t.wcet) := by
  obtain ⟨hs, hinv⟩ := run_invariant cfg n s h
  intro t ht
  obtain ⟨_, h2, h3, h4, h5, _⟩ := hinv t ht
  have hwt : 0 ≤ t.wcet := by
    have : t.static ∈ cfg := by rw [← hs]; exact List.mem_map_of_mem _ ht
    exact hw _ this
  refine ⟨h3 hwt, h2, ?_, h4⟩
  by_cases hr : t.released n
  · have := h4 hr
    have := h3 hwt
    omega
  · rw [(h5 hr).2.1]
    exact hwt

/-- Witness for `work_bound`: the state after two ticks of the contending
pair. -/
theorem work_bound_witness :
    (∀ d ∈ inversion_cfg, 0 ≤ d.wcet) ∧
    ∃ s, sim_at inversion_cfg 2 = some s ∧
      ∀ t ∈ s.tasks, 0 ≤ t.remaining ∧ 0 ≤ t.exec_progress ∧ t.exec_progress ≤ t.wcet ∧
        (t.released 2 → t.remaining + t.exec_progress = t.wcet) :=
  ⟨by decide, (sim_at inversion_cfg 2).get rfl, (Option.some_get _).symm,
    work_bound inversion_cfg (by decide) 2 _ (Option.some_get _).symm⟩

/-! ## Invariants of runs whose ids are positions -/

theorem ids_get (cfg : List TaskSpec) (hid : ids_are_positions cfg) (j : Nat) (d : TaskSpec)
    (h : cfg[j]? = some d) : d.id = (j : Int) := by
  have hj : j < cfg.length := (List.getElem?_eq_some.mp h).1
  have h2 : (cfg.map (fun d => d.id))[j]? =
      ((List.range cfg.length).map (fun (j : Nat) => (j : Int)))[j]? := by
    unfold ids_are_positions at hid
    rw [hid]
  rw [List.getElem?_map, List.getElem?_map, h, List.getElem?_range hj] at h2
  simpa using h2

theorem id_of_static (cfg : List TaskSpec) (hid : ids_are_positions cfg) (l : List Task)
    (hs : l.map Task.static = cfg) (j : Nat) (t : Task) (h : l[j]? = some t) :
    t.id = (j : Int) := by
  have : cfg[j]? = some t.static := by
    rw [← hs, List.getElem?_map, h]; rfl
  exact ids_get cfg hid j t.static this

theorem length_of_static (l l' : List Task) (h : l'.map Task.static = l.map Task.static) :
    l'.length = l.length := by
  have := congrArg List.length h
  simpa using this

theorem holder_inv_releases (time : Int) (s : Sim) (h : holder_inv s) :
    holder_inv (after_releases time s) := by
  obtain ⟨h1, h2⟩ := h
  constructor
  · rw [after_releases_tasks, List.length_map]
    exact h1
  · intro j t hj hne
    rw [after_releases_tasks, List.getElem?_map] at hj
    cases hu : s.tasks[j]? with
    | none => rw [hu] at hj; cases hj
    | some u =>
      rw [hu] at hj
      simp only [Option.map_some', Option.some.injEq] at hj
      subst hj
      rw [release_at_cur_priority, release_at_base_priority]
      split
      · rfl
      · exact h2 j u hu hne

/-- The dispatch part of a tick keeps `holder_inv` when ids are positions. -/
theorem holder_inv_step (time : Int) (s s' : Sim) (hids : ∀ (j : Nat) (t : Task),
      s.tasks[j]? = some t → t.id = (j : Int))
    (h : step time s = some s') (hinv : holder_inv s) : holder_inv s' := by
  obtain ⟨h1, h2⟩ := hinv
  obtain ⟨_, hc⟩ := step_cases time s s' h
  rcases hc with ⟨_, e⟩ | ⟨i, tk, _, h0, _, hb | hr⟩
  · subst e; exact ⟨h1, h2⟩
  · obtain ⟨hb, hge, hlt, hmu, hpt⟩ := hb
    have hlen : s'.tasks.length = s.tasks.length :=
      length_of_static _ _ (static_of_pointwise _ _ _ hpt (fun j t => static_block_at _ _ _ j t))
    constructor
    · rw [hmu, hlen]; exact h1
    · intro j t hj hne
      rw [hpt j] at hj
      cases hu : s.tasks[j]? with
      | none => rw [hu] at hj; cases hj
      | some u =>
        rw [hu] at hj
        simp only [Option.map_some', Option.some.injEq] at hj
        subst hj
        rw [hmu] at hne
        rw [block_at_cur_priority, block_at_base_priority]
        have hjh : ¬ (j = s.mu.holder_id.toNat) := by
          intro e
          apply hne
          rw [e, Int.toNat_of_nonneg hge]
        rw [if_neg (fun c => hjh c.1)]
        exact h2 j u hu hne
  · obtain ⟨hb, hmu, hpt⟩ := hr
    have hlen : s'.tasks.length = s.tasks.length :=
      length_of_static _ _ (static_of_pointwise _ _ _ hpt (fun j t => static_run_at _ _ _ j t))
    have hi : i < s.tasks.length := (List.getElem?_eq_some.mp h0).1
    have hid : tk.id = (i : Int) := hids i tk h0
    have hm1 : (mu_after_request s tk).holder_id = s.mu.holder_id ∨
        ((mu_after_request s tk).holder_id = (i : Int) ∧ s.mu.holder_id = -1) := by
      unfold mu_after_request
      split
      · rename_i c; right; exact ⟨hid, c.2⟩
      · left; rfl
    constructor
    · rw [hmu, hlen]
      split
      · left; rfl
      · rcases hm1 with e | ⟨e, _⟩
        · rw [e]; exact h1
        · rw [e]; right; exact ⟨by omega, by simpa using hi⟩
    · intro j t hj hne
      rw [hpt j] at hj
      cases hu : s.tasks[j]? with
      | none => rw [hu] at hj; cases hj
      | some u =>
        rw [hu] at hj
        simp only [Option.map_some', Option.some.injEq] at hj
        subst hj
        rw [run_at_cur_priority, run_at_base_priority]
        by_cases hrel : release_cond tk.exec (mu_after_request s tk)
        · by_cases hji : j = i
          · simp [hji, hrel]
          · have hold : s.mu.holder_id ≠ (j : Int) := by
              have e3 : (mu_after_request s tk).holder_id = (i : Int) := by
                rw [hrel.2.2]; exact hid
              rcases hm1 with e | ⟨_, e⟩
              · rw [← e, e3]; omega
              · rw [e]; omega
            simp only [hji, false_and, if_false]
            exact h2 j u hu hold
        · simp only [hrel, if_false] at hmu
          rw [hmu] at hne
          have hold : s.mu.holder_id ≠ (j : Int) := by
            rcases hm1 with e | ⟨_, e⟩
            · rw [← e]; exact hne
            · rw [e]; omega
          simp only [hrel, decide_False, Bool.false_eq_true, and_false, if_false]
          exact h2 j u hu hold

/-- After `n` iterations over a task set whose ids are positions, the
mutex invariant holds. -/
theorem run_holder_inv (cfg : List TaskSpec) (hid : ids_are_positions cfg) :
    ∀ (n : Nat) (s : Sim), sim_at cfg n = some s → holder_inv s := by
  intro n
  induction n with
  | zero =>
    intro s h
    obtain ⟨h, _⟩ := sim_at_zero cfg s h
    subst h
    refine ⟨Or.inl rfl, ?_⟩
    intro j t hj _
    rw [start_tasks, List.map_map, List.getElem?_map] at hj
    cases hd : cfg[j]? with
    | none => rw [hd] at hj; cases hj
    | some d =>
      rw [hd] at hj
      simp only [Option.map_some', Option.some.injEq, Function.comp] at hj
      subst hj
      simp [build, Task.new]
  | succ n ih =>
    intro s h
    obtain ⟨s0, h0, ht⟩ := (sim_at_succ cfg n s).mp h
    have hs0 := (run_invariant cfg n s0 h0).1
    have hs1 : (after_releases (n : Int) s0).tasks.map Task.static = cfg := by
      rw [after_releases_tasks, List.map_map, ← hs0]
      apply List.map_congr_left
      intro t _
      simp [Function.comp, static_release_at]
    exact holder_inv_step (n : Int) _ s (id_of_static cfg hid _ hs1) (tick_some _ _ _ ht).1
      (holder_inv_releases (n : Int) s0 (ih s0 h0))

/-- On a task set whose ids are positions the dispatch part of every tick
is defined: no index goes out of range. -/
theorem dispatch_defined (cfg : List TaskSpec) (hid : ids_are_positions cfg) (n : Nat)
    (s0 : Sim) (h0 : sim_at cfg n = some s0) :
    ∃ s1, step (n : Int) (after_releases (n : Int) s0) = some s1 := by
  have hinv := holder_inv_releases (n : Int) s0 (run_holder_inv cfg hid n s0 h0)
  apply step_defined (n : Int) (after_releases (n : Int) s0)
  intro i tk _ _ hb
  rcases hinv.1 with e | e
  · exact absurd e hb.2.1
  · exact e

/-- C7. No stale boost: for a task set whose ids are their list positions,
in every state the program goes through, every task that is not the mutex
holder has `cur_priority = base_priority`. -/
theorem no_stale_boost (cfg : List TaskSpec) (hid : ids_are_positions cfg) (s : Sim)
    (h : Reachable cfg s) :
    ∀ t ∈ s.tasks, s.mu.holder_id ≠ t.id → t.cur_priority = t.base_priority := by
  obtain ⟨n, _, hn⟩ := h
  intro t ht hne
  obtain ⟨j, hj⟩ := List.getElem?_of_mem ht
  have e := id_of_static cfg hid s.tasks (run_invariant cfg n s hn).1 j t hj
  exact (run_holder_inv cfg hid n s hn).2 j t hj (by rw [← e]; exact hne)

/-- Witness for `no_stale_boost`: after the inheritance tick the boosted
task is the holder, the other one carries its base priority. -/
theorem no_stale_boost_witness :
    ids_are_positions inversion_cfg ∧
    ∃ s, Reachable inversion_cfg s ∧
      ∀ t ∈ s.tasks, s.mu.holder_id ≠ t.id → t.cur_priority = t.base_priority :=
  ⟨by decide, (sim_at inversion_cfg 2).get rfl,
    ⟨2, by decide, (Option.some_get _).symm⟩,
    no_stale_boost inversion_cfg (by decide) _ ⟨2, by decide, (Option.some_get _).symm⟩⟩

theorem holder_in_section_releases (n : Nat) (s : Sim)
    (hinv : ∀ t ∈ s.tasks, task_inv n t) (h : holder_in_section s) :
    holder_in_section (after_releases (n : Int) s) := by
  intro j t hj hh
  rw [after_releases_tasks, List.getElem?_map] at hj
  cases hu : s.tasks[j]? with
  | none => rw [hu] at hj; cases hj
  | some u =>
    rw [hu] at hj
    simp only [Option.map_some', Option.some.injEq] at hj
    subst hj
    obtain ⟨a, b, c⟩ := h j u hu hh
    have hrel : u.released n := by
      by_contra hn
      have := ((hinv u (List.getElem?_mem hu)).2.2.2.2.1 hn).2.1
      omega
    have hno : ¬ ((n : Int) = u.release_time ∧ (n : Int) ≠ 0) := by
      rintro ⟨e1, e2⟩
      rcases hrel with r | ⟨_, r⟩ <;> omega
    rw [release_at_of_not _ _ hno]
    exact ⟨a, b, c⟩

/-- The dispatch part of a tick keeps the holder strictly inside its
critical section, when ids are positions and sections are not empty. -/
theorem holder_in_section_step (time : Int) (s s' : Sim)
    (hids : ∀ (j : Nat) (t : Task), s.tasks[j]? = some t → t.id = (j : Int))
    (hdur : ∀ t ∈ s.tasks, 0 ≤ t.mutex_start → 1 ≤ t.mutex_dur)
    (h : step time s = some s') (hsec : holder_in_section s) : holder_in_section s' := by
  obtain ⟨_, hc⟩ := step_cases time s s' h
  rcases hc with ⟨_, e⟩ | ⟨i, tk, _, h0, _, hb | hr⟩
  · subst e; exact hsec
  · obtain ⟨_, _, _, hmu, hpt⟩ := hb
    intro j t hj hh
    rw [hpt j] at hj
    cases hu : s.tasks[j]? with
    | none => rw [hu] at hj; cases hj
    | some u =>
      rw [hu] at hj
      simp only [Option.map_some', Option.some.injEq] at hj
      subst hj
      rw [hmu] at hh
      simpa using hsec j u hu hh
  · obtain ⟨hb, hmu, hpt⟩ := hr
    have hid : tk.id = (i : Int) := hids i tk h0
    intro j t hj hh
    rw [hpt j] at hj
    cases hu : s.tasks[j]? with
    | none => rw [hu] at hj; cases hj
    | some u =>
      rw [hu] at hj
      simp only [Option.map_some', Option.some.injEq] at hj
      subst hj
      by_cases hrel : release_cond tk.exec (mu_after_request s tk)
      · rw [hmu, if_pos hrel] at hh
        simp at hh
      · rw [hmu, if_neg hrel] at hh
        rw [run_at_exec_progress, run_at_mutex_start, run_at_mutex_dur]
        by_cases hji : j = i
        · subst hji
          rw [h0] at hu
          cases hu
          simp only [if_true]
          have hnr : ¬ (tk.mutex_start ≥ 0 ∧ tk.exec_progress + 1 = tk.mutex_start + tk.mutex_dur)
              := by
            rintro ⟨c1, c2⟩
            apply hrel
            exact ⟨c1, c2, by rw [hh]; exact hid.symm⟩
          by_cases hacq : tk.requesting ∧ s.mu.holder_id = -1
          · obtain ⟨⟨q1, q2⟩, _⟩ := hacq
            have := hdur tk (List.getElem?_mem h0) q2
            refine ⟨q2, by omega, ?_⟩
            by_contra hc
            apply hnr
            exact ⟨q2, by omega⟩
          · have e : mu_after_request s tk = s.mu := by
              unfold mu_after_request; rw [if_neg hacq]
            rw [e] at hh
            obtain ⟨a, b, c⟩ := hsec j tk h0 hh
            refine ⟨a, by omega, ?_⟩
            by_contra hc
            apply hnr
            exact ⟨a, by omega⟩
        · simp only [hji, if_false]
          have e : mu_after_request s tk = s.mu := by
            unfold mu_after_request
            rw [if_neg]
            rintro c
            simp only [mu_after_request, if_pos c] at hh
            rw [hid] at hh
            exact hji (by exact_mod_cast hh.symm)
          rw [e] at hh
          exact hsec j u hu hh

/-- After `n` iterations over a task set whose ids are positions and whose
critical sections are not empty, the holder is strictly inside its
critical section. -/
theorem run_holder_in_section (cfg : List TaskSpec) (hid : ids_are_positions cfg)
    (hpos : positive_sections cfg) :
    ∀ (n : Nat) (s : Sim), sim_at cfg n = some s → holder_in_section s := by
  intro n
  induction n with
  | zero =>
    intro s h
    obtain ⟨h, _⟩ := sim_at_zero cfg s h
    subst h
    intro j t _ hh
    rw [start_mu] at hh
    omega
  | succ n ih =>
    intro s h
    obtain ⟨s0, h0, ht⟩ := (sim_at_succ cfg n s).mp h
    obtain ⟨hs0, hinv0⟩ := run_invariant cfg n s0 h0
    have hs1 : (after_releases (n : Int) s0).tasks.map Task.static = cfg := by
      rw [after_releases_tasks, List.map_map, ← hs0]
      apply List.map_congr_left
      intro t _
      simp [Function.comp, static_release_at]
    refine holder_in_section_step (n : Int) _ s (id_of_static cfg hid _ hs1) ?_
      (tick_some _ _ _ ht).1
      (holder_in_section_releases n s0 hinv0 (ih s0 h0))
    intro t ht2 hst
    have : t.static ∈ cfg := by rw [← hs1]; exact List.mem_map_of_mem _ ht2
    exact hpos t.static this hst

/-- C8, as stated, fails: a critical section of duration zero is never
released, so the task completes while it is the holder. -/
theorem holder_completed_counterexample :
    spec_constraints zero_section_cfg ∧
    ∃ s t, sim_at zero_section_cfg 1 = some s ∧ s.tasks[0]? = some t ∧
      s.mu.holder_id = t.id ∧ t.remaining = 0 ∧ t.active = false := by
  exact ⟨by decide, (sim_at zero_section_cfg 1).get rfl, _, (Option.some_get _).symm,
    rfl, by decide, by decide, by decide⟩

/-- C8, amended. Mutex holder invariant: for a task set that satisfies the
configuration constraints and whose critical sections all last at least
one millisecond, at the end of every tick the mutex holder is none or the
id of exactly one task, and that task has `remaining > 0`. -/
theorem holder_not_completed (cfg : List TaskSpec) (hc : spec_constraints cfg)
    (hpos : positive_sections cfg) (n : Nat) (s : Sim) (h : sim_at cfg n = some s) :
    s.mu.holder_id = -1 ∨
    ∃ (j : Nat) (t : Task), s.tasks[j]? = some t ∧ t.id = s.mu.holder_id ∧
      (∀ (k : Nat) (u : Task), s.tasks[k]? = some u → u.id = s.mu.holder_id → k = j) ∧
      0 < t.remaining := by
  obtain ⟨hid, hcon⟩ := hc
  obtain ⟨hs, hinv⟩ := run_invariant cfg n s h
  obtain ⟨hv, _⟩ := run_holder_inv cfg hid n s h
  have hsec := run_holder_in_section cfg hid hpos n s h
  rcases hv with e | ⟨h1, h2⟩
  · exact Or.inl e
  · right
    have hj : s.tasks[s.mu.holder_id.toNat]? = some (s.tasks[s.mu.holder_id.toNat]) :=
      List.getElem?_eq_getElem h2
    have hjj : s.mu.holder_id = ((s.mu.holder_id.toNat : Nat) : Int) :=
      (Int.toNat_of_nonneg h1).symm
    refine ⟨s.mu.holder_id.toNat, _, hj, ?_, ?_, ?_⟩
    · rw [id_of_static cfg hid s.tasks hs _ _ hj]; exact hjj.symm
    · intro k u hk hu
      rw [id_of_static cfg hid s.tasks hs k u hk] at hu
      omega
    · obtain ⟨a, b, c⟩ := hsec _ _ hj hjj
      have hmem := List.getElem?_mem hj
      obtain ⟨_, _, _, h4, h5, _⟩ := hinv _ hmem
      have hst : (s.tasks[s.mu.holder_id.toNat]).static ∈ cfg := by
        rw [← hs]; exact List.mem_map_of_mem _ hmem
      have hw := (hcon _ hst).2.2.2 a
      have hrel : (s.tasks[s.mu.holder_id.toNat]).released n := by
        by_contra hn
        have := (h5 hn).2.1
        omega
      have := h4 hrel
      have hw2 : (s.tasks[s.mu.holder_id.toNat]).mutex_start +
          (s.tasks[s.mu.holder_id.toNat]).mutex_dur ≤ (s.tasks[s.mu.holder_id.toNat]).wcet :=
        hw.2
      omega

/-- Witness for `holder_not_completed`: after two ticks the low task holds
the mutex with work left. -/
theorem holder_not_completed_witness :
    spec_constraints inversion_cfg ∧ positive_sections inversion_cfg ∧
    ∃ s, sim_at inversion_cfg 2 = some s ∧
      (s.mu.holder_id = -1 ∨
        ∃ (j : Nat) (t : Task), s.tasks[j]? = some t ∧ t.id = s.mu.holder_id ∧
          (∀ (k : Nat) (u : Task), s.tasks[k]? = some u → u.id = s.mu.holder_id → k = j) ∧
          0 < t.remaining) :=
  ⟨by decide, by decide, (sim_at inversion_cfg 2).get rfl, (Option.some_get _).symm,
    holder_not_completed inversion_cfg (by decide) (by decide) 2 _ (Option.some_get _).symm⟩

/-! ## Blocking and priority inheritance -/

/-- The defect behind C1, evaluated on two tasks whose ids are not their
positions. After two ticks the task of id 1, at position 0, holds the mutex
with priority 1. In tick 2 the task of id 0, at position 1, of priority 9, is
dispatched at its request point and blocks. The lookup `tasks[mu.holder_id]`
reads position 1, the requester itself, so the holder keeps priority 1
instead of being raised to 9. -/
theorem inheritance_misses_holder :
    ∃ (s0 s' : Sim) (R H H' : Task), sim_at swapped_ids_cfg 2 = some s0 ∧
      pick_task (after_releases 2 s0).tasks = 1 ∧
      (after_releases 2 s0).tasks[1]? = some R ∧ R.requesting ∧
      (after_releases 2 s0).tasks[0]? = some H ∧
      (after_releases 2 s0).mu.holder_id = H.id ∧ H.id ≠ R.id ∧
      tick 2 s0 = some s' ∧ s'.tasks[0]? = some H' ∧
      H.cur_priority = 1 ∧ R.cur_priority = 9 ∧ H'.cur_priority = 1 ∧
      H'.cur_priority ≠ max H.cur_priority R.cur_priority :=
  ⟨(sim_at swapped_ids_cfg 2).get rfl, (tick 2 ((sim_at swapped_ids_cfg 2).get rfl)).get rfl,
    _, _, _, (Option.some_get _).symm, by decide, rfl, by decide, rfl, by decide, by decide,
    (Option.some_get _).symm, rfl, by decide, by decide, by decide, by decide⟩

/-! ## The program as a whole -/

theorem sim_at_logs (cfg : List TaskSpec) : ∀ (n : Nat) (s : Sim),
    sim_at cfg n = some s → (start cfg).logs <+: s.logs := by
  intro n
  induction n with
  | zero =>
    intro s h
    obtain ⟨h, _⟩ := sim_at_zero cfg s h
    subst h
    exact List.prefix_refl _
  | succ n ih =>
    intro s h
    obtain ⟨s0, h0, ht⟩ := (sim_at_succ cfg n s).mp h
    exact (ih s0 h0).trans (tick_logs (n : Int) s0 s ht)

/-- A run that is defined up to a larger number of iterations is defined up
to every smaller one. -/
theorem sim_at_none_succ (cfg : List TaskSpec) (n : Nat) (h : sim_at cfg n = none) :
    ∀ k : Nat, sim_at cfg (n + k) = none := by
  intro k
  induction k with
  | zero => exact h
  | succ k ih =>
    show (sim_at cfg (n + k)).bind (tick ((n + k : Nat) : Int)) = none
    rw [ih]
    rfl

/-- An overrun of the log buffer leaves the run undefined from there on. -/
theorem overrun_stops (cfg : List TaskSpec) (n : Nat) (h : overruns cfg n) :
    sim_at cfg n = none := by
  rcases h with h0 | ⟨k, s, s1, hk, hs, hstep, hfit⟩
  · have z : sim_at cfg 0 = none := by
      unfold sim_at
      simp [h0]
    have := sim_at_none_succ cfg 0 z n
    simpa using this
  · have e : sim_at cfg (k + 1) = none := by
      show (sim_at cfg k).bind (tick (k : Int)) = none
      rw [hs]
      show tick (k : Int) s = none
      unfold tick
      rw [hstep]
      simp [hfit]
    obtain ⟨d, rfl⟩ := Nat.exists_eq_add_of_le (Nat.succ_le_of_lt hk)
    exact sim_at_none_succ cfg (k + 1) e d

/-- On a task set whose ids are positions, the run is defined up to `n`
iterations unless it overruns the log buffer before. -/
theorem run_or_overrun (cfg : List TaskSpec) (hid : ids_are_positions cfg) :
    ∀ n : Nat, (∃ s, sim_at cfg n = some s) ∨ overruns cfg n := by
  intro n
  induction n with
  | zero =>
    by_cases c : lines_fit (start cfg).logs = true
    · left
      exact ⟨start cfg, by unfold sim_at; simp [c]⟩
    · right
      left
      simpa using c
  | succ n ih =>
    rcases ih with ⟨s0, h0⟩ | ho
    · obtain ⟨s1, h1⟩ := dispatch_defined cfg hid n s0 h0
      by_cases c : lines_fit (s1.logs.drop s0.logs.length) = true
      · left
        exact ⟨s1, (sim_at_succ cfg n s1).mpr ⟨s0, h0, tick_of_step _ _ _ h1 c⟩⟩
      · right
        right
        exact ⟨n, s0, s1, Nat.lt_succ_self n, h0, h1, by simpa using c⟩
    · right
      rcases ho with h0 | ⟨k, s, s1, hk, hs, hstep, hfit⟩
      · exact Or.inl h0
      · exact Or.inr ⟨k, s, s1, Nat.lt_succ_of_lt hk, hs, hstep, hfit⟩

/-- What the program does on a task set whose ids are positions: when no
line overruns the log buffer it runs to the end, prints the log, which
starts with the lines of the initial release pass, and exits with status 0;
when a line overruns the buffer it is undefined. -/
theorem main_program_cases (cfg : List TaskSpec) (hid : ids_are_positions cfg) :
    (¬ overruns cfg (SIM_TIME + 1) →
      ∃ s, sim_at cfg (SIM_TIME + 1) = some s ∧ main_program cfg = some (s.logs, 0) ∧
        (start cfg).logs <+: s.logs) ∧
    (overruns cfg (SIM_TIME + 1) → main_program cfg = none) := by
  constructor
  · intro hno
    rcases run_or_overrun cfg hid (SIM_TIME + 1) with ⟨s, hs⟩ | ho
    · exact ⟨s, hs, by simp [main_program, hs], sim_at_logs cfg _ s hs⟩
    · exact absurd ho hno
  · intro ho
    simp [main_program, overrun_stops cfg _ ho]

/-- Once no task is Ready and no release is pending, the state stays the
same at every later iteration. -/
theorem sim_at_idle (cfg : List TaskSpec) (n : Nat) (s : Sim) (hs : sim_at cfg n = some s)
    (hr : ∀ t ∈ s.tasks, t.ready = false) (hp : ∀ t ∈ s.tasks, t.release_time < (n : Int)) :
    ∀ k : Nat, sim_at cfg (n + k) = some s := by
  intro k
  induction k with
  | zero => exact hs
  | succ k ih =>
    refine (sim_at_succ cfg (n + k) s).mpr ⟨s, ih, ?_⟩
    apply tick_idle _ s hr
    intro t ht
    have := hp t ht
    push_cast
    omega

set_option maxRecDepth 1000000 in
/-- The program runs to the end on the task set that `main` hardcodes: after
201 iterations every job is over, and the remaining ticks are idle. -/
theorem demo_runs :
    ∃ s, sim_at demo (SIM_TIME + 1) = some s ∧ main_program demo = some (s.logs, 0) := by
  have h : ∃ s, sim_at demo 201 = some s ∧ (∀ t ∈ s.tasks, t.ready = false) ∧
      (∀ t ∈ s.tasks, t.release_time < ((201 : Nat) : Int)) :=
    ⟨(sim_at demo 201).get (by decide), (Option.some_get _).symm, by decide, by decide⟩
  obtain ⟨s, hs, hr, hp⟩ := h
  have e := sim_at_idle demo 201 s hs hr hp 800
  have e2 : sim_at demo (SIM_TIME + 1) = some s := e
  exact ⟨s, e2, by simp [main_program, e2]⟩

/-- C9, as stated, fails: the task set that `main` hardcodes has a critical
section with `mutex_start + mutex_dur > wcet`, and the program simulates
it, prints events and exits with status 0. -/
theorem no_rejection_counterexample :
    (∃ d ∈ demo, 0 ≤ d.mutex_start ∧ d.mutex_start + d.mutex_dur > d.wcet) ∧
    ∃ out, main_program demo = some (out, 0) ∧ out ≠ [] := by
  refine ⟨by decide, ?_⟩
  obtain ⟨s, hs, hm⟩ := demo_runs
  have hp := sim_at_logs demo _ s hs
  refine ⟨s.logs, hm, ?_⟩
  intro e
  rw [e] at hp
  have h1 := hp.length_le
  have h2 : (start demo).logs.length = 1 := by decide
  rw [h2] at h1
  simp at h1

/-- C9, amended. No configuration check: for every task set whose ids are
their list positions, also when a critical section has
`mutex_start + mutex_dur > wcet`, the program rejects nothing. When no line
it logs overruns the buffer of `log_event`, it runs all `SIM_TIME + 1` ticks,
prints the events of the simulation, those of the initial release pass
first, and exits with status 0; when a line overruns the buffer its
behaviour is undefined. -/
theorem main_runs_unchecked (cfg : List TaskSpec) (hid : ids_are_positions cfg)
    (_hbad : ∃ d ∈ cfg, 0 ≤ d.mutex_start ∧ d.mutex_start + d.mutex_dur > d.wcet) :
    (¬ overruns cfg (SIM_TIME + 1) →
      ∃ s, sim_at cfg (SIM_TIME + 1) = some s ∧ main_program cfg = some (s.logs, 0) ∧
        (start cfg).logs <+: s.logs) ∧
    (overruns cfg (SIM_TIME + 1) → main_program cfg = none) :=
  main_program_cases cfg hid

/-- Witness for `main_runs_unchecked`: the hardcoded task set. -/
theorem main_runs_unchecked_witness :
    ids_are_positions demo ∧
    (∃ d ∈ demo, 0 ≤ d.mutex_start ∧ d.mutex_start + d.mutex_dur > d.wcet) ∧
    (¬ overruns demo (SIM_TIME + 1) →
      ∃ s, sim_at demo (SIM_TIME + 1) = some s ∧ main_program demo = some (s.logs, 0) ∧
        (start demo).logs <+: s.logs) ∧
    (overruns demo (SIM_TIME + 1) → main_program demo = none) :=
  ⟨by decide, by decide, main_runs_unchecked demo (by decide) (by decide)⟩

/-! ## Waking on release -/

/-- C5, as stated, fails: in tick 1 the task at position 0 frees the mutex,
and the task at position 1, which was not Blocked but not yet released,
becomes active because its job is released in this very tick. -/
theorem wake_frame_counterexample :
    ids_are_positions release_overlap_cfg ∧
    ∃ s s' t t', sim_at release_overlap_cfg 1 = some s ∧ tick 1 s = some s' ∧
      frees_mutex (after_releases 1 s) 0 ∧
      s.tasks[1]? = some t ∧ s'.tasks[1]? = some t' ∧
      ¬ (t.released 1 ∧ t.blocked) ∧ t.active = false ∧ t'.active = true ∧
      0 < t'.remaining := by
  refine ⟨by decide, (sim_at release_overlap_cfg 1).get rfl,
    (tick 1 ((sim_at release_overlap_cfg 1).get rfl)).get rfl, _, _,
    (Option.some_get _).symm, (Option.some_get _).symm, ?_, rfl, rfl,
    by decide, by decide, by decide, by decide⟩
  exact ⟨by decide, _, rfl, by decide⟩

/-- C5, amended. Wake on release: for a task set whose ids are their list
positions, a tick that frees the mutex makes every task that was Blocked
before the tick Ready, leaves the mutex without holder, and changes the
active flag of no other task, apart from the releasing task when it
completes and from the tasks whose job is released in this tick. -/
theorem wake_on_release (cfg : List TaskSpec) (hid : ids_are_positions cfg) (n : Nat)
    (s s' : Sim) (hs : sim_at cfg n = some s) (ht : tick (n : Int) s = some s') (i : Nat)
    (hf : frees_mutex (after_releases (n : Int) s) i) :
    (∀ (j : Nat) (B : Task), s.tasks[j]? = some B → B.blocked →
      ∃ B', s'.tasks[j]? = some B' ∧ B'.active = true ∧ 0 < B'.remaining) ∧
    (∀ (j : Nat) (t t' : Task), s.tasks[j]? = some t → s'.tasks[j]? = some t' →
      ¬ (t.released n ∧ t.blocked) → ¬ ((n : Int) = t.release_time ∧ (n : Int) ≠ 0) →
      t'.active ≠ t.active → j = i ∧ t'.remaining ≤ 0 ∧ t'.active = false) ∧
    s'.mu.holder_id = -1 := by
  obtain ⟨hst, hinv⟩ := run_invariant cfg n s hs
  obtain ⟨hrun, tk, h0, hrel⟩ := hf
  obtain ⟨hp, tk2, h02, hnb⟩ := (runs_at_eq _ i).mp hrun
  rw [h0] at h02
  cases h02
  have hs1 : (after_releases (n : Int) s).tasks.map Task.static = cfg := by
    rw [after_releases_tasks, List.map_map, ← hst]
    apply List.map_congr_left
    intro t _
    simp [Function.comp, static_release_at]
  have hids := id_of_static cfg hid _ hs1
  -- a record that is not released in this tick is the same at the dispatch point
  have hsame : ∀ (j : Nat) (t : Task), s.tasks[j]? = some t →
      ¬ ((n : Int) = t.release_time ∧ (n : Int) ≠ 0) →
      (after_releases (n : Int) s).tasks[j]? = some t := by
    intro j t hj hno
    rw [after_releases_tasks, List.getElem?_map, hj]
    simp [release_at_of_not _ _ hno]
  have hrelno : ∀ t : Task, t.released n → ¬ ((n : Int) = t.release_time ∧ (n : Int) ≠ 0) := by
    rintro t (r | ⟨_, r⟩) ⟨e1, e2⟩ <;> omega
  obtain ⟨_, hc⟩ := step_cases (n : Int) _ s' (tick_some _ _ _ ht).1
  rcases hc with ⟨hp2, _⟩ | ⟨i2, tk2, hp2, h2, hrdy, hb | hr⟩
  · rw [hp] at hp2; omega
  · have e : i2 = i := by rw [hp] at hp2; exact_mod_cast hp2.symm
    subst e
    rw [h0] at h2
    cases h2
    exact absurd hb.1 hnb
  · have e : i2 = i := by rw [hp] at hp2; exact_mod_cast hp2.symm
    subst e
    rw [h0] at h2
    cases h2
    obtain ⟨_, hmu, hpt⟩ := hr
    simp only [hrel, if_true, decide_True] at hmu hpt
    obtain ⟨ra, _⟩ := (ready_iff tk).mp hrdy
    refine ⟨?_, ?_, by rw [hmu]⟩
    · intro j B hj hB
      obtain ⟨_, b2, _, _, b5, b6⟩ := hinv B (List.getElem?_mem hj)
      have hBrel : B.released n := by
        by_contra hn
        have := (b5 hn).1
        have := hB.2
        omega
      have hj1 := hsame j B hj (hrelno B hBrel)
      have hji : j ≠ i2 := by
        intro e
        subst e
        rw [h0] at hj1
        cases hj1
        rw [hB.1] at ra
        cases ra
      have hw : wake_cond tk.id B = true := by
        have e1 : B.id = (j : Int) := hids j B hj1
        have e2 : tk.id = (i2 : Int) := hids i2 tk h0
        have hq := b6 hB
        have hne : ¬ (B.id = tk.id) := by rw [e1, e2]; omega
        simp [wake_cond, hB.1, hB.2, b2, hne, hq.1.symm]
      refine ⟨_, by rw [hpt j, hj1]; rfl, ?_, ?_⟩
      · rw [run_at_active, if_neg hji]
        simp [hw]
      · rw [run_at_remaining, if_neg hji]
        exact hB.2
    · intro j t t' hj hj' hnB hno hch
      have hj1 := hsame j t hj hno
      rw [hpt j, hj1] at hj'
      simp only [Option.map_some', Option.some.injEq] at hj'
      subst hj'
      by_cases hji : j = i2
      · refine ⟨hji, ?_, ?_⟩
        · rw [run_at_active, if_pos hji] at hch
          rw [run_at_remaining, if_pos hji]
          by_contra hc
          exact hch (by rw [if_neg hc])
        · rw [run_at_active, if_pos hji] at hch ⊢
          by_cases hc : t.remaining - 1 ≤ 0
          · rw [if_pos hc]
          · exact absurd (by rw [if_neg hc]) hch
      · exfalso
        rw [run_at_active, if_neg hji] at hch
        by_cases hw : wake_cond tk.id t = true
        · apply hnB
          have hbl : t.blocked := by
            simp only [wake_cond, Bool.and_eq_true, Bool.not_eq_true', decide_eq_true_eq] at hw
            exact ⟨hw.1.1.1.1, hw.1.1.1.2⟩
          refine ⟨?_, hbl⟩
          by_contra hn
          have := ((hinv t (List.getElem?_mem hj)).2.2.2.2.1 hn).1
          have := hbl.2
          omega
        · apply hch
          simp [hw]

/-- Witness for `wake_on_release`: in tick 3 the low task ends its critical
section while the high task is Blocked on the mutex. -/
theorem wake_on_release_witness :
    ids_are_positions inversion_cfg ∧
    ∃ s s', sim_at inversion_cfg 3 = some s ∧ tick 3 s = some s' ∧
      frees_mutex (after_releases 3 s) 0 ∧
      (∀ (j : Nat) (B : Task), s.tasks[j]? = some B → B.blocked →
        ∃ B', s'.tasks[j]? = some B' ∧ B'.active = true ∧ 0 < B'.remaining) ∧
      (∀ (j : Nat) (t t' : Task), s.tasks[j]? = some t → s'.tasks[j]? = some t' →
        ¬ (t.released 3 ∧ t.blocked) → ¬ (((3 : Nat) : Int) = t.release_time ∧
          ((3 : Nat) : Int) ≠ 0) →
        t'.active ≠ t.active → j = 0 ∧ t'.remaining ≤ 0 ∧ t'.active = false) ∧
      s'.mu.holder_id = -1 :=
  ⟨by decide, (sim_at inversion_cfg 3).get rfl,
    (tick 3 ((sim_at inversion_cfg 3).get rfl)).get rfl,
    (Option.some_get _).symm, (Option.some_get _).symm,
    ⟨by decide, _, rfl, by decide⟩,
    wake_on_release inversion_cfg (by decide) 3 _ _ (Option.some_get _).symm
      (Option.some_get _).symm 0 ⟨by decide, _, rfl, by decide⟩⟩

/-! ## Scenario A -/

/-- C11. Scenario A: `Low` acquires the mutex at tick 10; `Medium` runs at
ticks 20..29 and the holder stays `Low`; at tick 30 `High` blocks with
holder `Low` and the priority of `Low` goes from 1 to 10; from tick 31 to
tick 70 it is `Low` that executes, never `Medium`; at tick 70 `Low` releases
the mutex, is back at priority 1, and `High` is Ready again. -/
theorem scenario_a_trace :
    (snapshot scenario_a 10 = some (-1, [(1, true, 190, 10), (5, false, 0, 0), (10, false, 0, 0)]) ∧
     executes scenario_a 10 = some (some 0) ∧
     events_of scenario_a 10 =
       some ["0010 ms: Low acquired mutex", "0010 ms: Low running (remaining=189)"] ∧
     snapshot scenario_a 11 = some (0, [(1, true, 189, 11), (5, false, 0, 0), (10, false, 0, 0)])) ∧
    (∀ t ∈ List.range' 20 10,
      executes scenario_a t = some (some 1) ∧
      (snapshot scenario_a (t + 1)).map (fun v => v.1) = some 0) ∧
    (snapshot scenario_a 30 = some (0, [(1, true, 180, 20), (5, true, 40, 10), (10, false, 0, 0)]) ∧
     executes scenario_a 30 = some none ∧
     events_of scenario_a 30 =
       some ["0030 ms: High released",
             "0030 ms: High blocked waiting for mutex (holder=Low)",
             "0030 ms: Priority inheritance: raising Low prio from 1 to 10"] ∧
     snapshot scenario_a 31 = some (0, [(10, true, 180, 20), (5, true, 40, 10), (10, false, 30, 0)])) ∧
    (∀ t ∈ List.range' 31 40, executes scenario_a t = some (some 0)) ∧
    (snapshot scenario_a 70 = some (0, [(10, true, 141, 59), (5, true, 40, 10), (10, false, 30, 0)]) ∧
     events_of scenario_a 70 =
       some ["0070 ms: Low running (remaining=140)", "0070 ms: Low released mutex",
             "0070 ms: High unblocked (mutex freed)"] ∧
     snapshot scenario_a 71 = some (-1, [(1, true, 140, 60), (5, true, 40, 10), (10, true, 30, 0)])) := by
  refine ⟨⟨by decide, by decide, by decide, by decide⟩, by decide,
    ⟨by decide, by decide, by decide, by decide⟩, by decide,
    ⟨by decide, by decide, by decide⟩⟩
/-! ## Idle ticks -/

/-- C12. Idle ticks are no-ops: a tick `t > 0` in which no task is Ready and
no task has `release_time = t` leaves the task records, the mutex holder and
the event log unchanged; and when moreover no release is pending, every
later tick leaves them unchanged, so what the program prints is the log as
it stands. -/
theorem idle_ticks_are_noops (time : Int) (s : Sim) (ht : 0 < time)
    (hr : ∀ t ∈ s.tasks, t.ready = false)
    (hn : ∀ t ∈ s.tasks, t.release_time ≠ time) :
    tick time s = some s ∧
    ∀ (cfg : List TaskSpec) (n : Nat), (n : Int) = time → sim_at cfg n = some s →
      (∀ t ∈ s.tasks, t.release_time < time) →
      (∀ m : Nat, n ≤ m → sim_at cfg m = some s) ∧
      (n ≤ SIM_TIME + 1 → main_program cfg = some (s.logs, 0)) := by
  have _ := ht
  refine ⟨tick_idle time s hr hn, ?_⟩
  intro cfg n hnt hs hpend
  have hall : ∀ m : Nat, n ≤ m → sim_at cfg m = some s := by
    intro m hm
    induction m with
    | zero =>
      have : n = 0 := by omega
      subst this
      exact hs
    | succ m ih =>
      by_cases e : n = m + 1
      · subst e; exact hs
      · have hm' : n ≤ m := by omega
        refine (sim_at_succ cfg m s).mpr ⟨s, ih hm', ?_⟩
        apply tick_idle (m : Int) s hr
        intro t htm
        have := hpend t htm
        omega
  refine ⟨hall, ?_⟩
  intro hb
  simp [main_program, hall (SIM_TIME + 1) hb]

/-- Witness for `idle_ticks_are_noops`: the single task of the zero-section
set has completed in tick 0, and tick 1 finds nothing to do. -/
theorem idle_ticks_are_noops_witness :
    ∃ s, sim_at zero_section_cfg 1 = some s ∧ (0 : Int) < 1 ∧
      (∀ t ∈ s.tasks, t.ready = false) ∧ (∀ t ∈ s.tasks, t.release_time ≠ 1) ∧
      tick 1 s = some s ∧
      ∀ (cfg : List TaskSpec) (n : Nat), (n : Int) = 1 → sim_at cfg n = some s →
        (∀ t ∈ s.tasks, t.release_time < 1) →
        (∀ m : Nat, n ≤ m → sim_at cfg m = some s) ∧
        (n ≤ SIM_TIME + 1 → main_program cfg = some (s.logs, 0)) :=
  ⟨(sim_at zero_section_cfg 1).get rfl, (Option.some_get _).symm, by decide, by decide,
    by decide,
    idle_ticks_are_noops 1 ((sim_at zero_section_cfg 1).get rfl) (by decide) (by decide)
      (by decide)⟩
/-! ## A release point beyond the end of the job -/

/-- At the dispatch point of tick `n` the records carry their descriptors
and satisfy `task_inv` for `n + 1` iterations. -/
theorem dispatch_invariant (cfg : List TaskSpec) (n : Nat) (s : Sim)
    (h : sim_at cfg n = some s) :
    (after_releases (n : Int) s).tasks.map Task.static = cfg ∧
    ∀ t ∈ (after_releases (n : Int) s).tasks, task_inv (n + 1) t := by
  obtain ⟨hs, hinv⟩ := run_invariant cfg n s h
  constructor
  · rw [after_releases_tasks, List.map_map, ← hs]
    apply List.map_congr_left
    intro t _
    simp [Function.comp, static_release_at]
  · intro t ht
    rw [after_releases_tasks] at ht
    obtain ⟨u, hu, rfl⟩ := List.mem_map.mp ht
    exact task_inv_release n u (hinv u hu)

/-- A dispatched task has executed less than its `wcet`. -/
theorem ready_below_wcet (m : Nat) (t : Task) (h : task_inv m t) (hr : t.ready = true) :
    t.exec_progress + 1 ≤ t.wcet := by
  obtain ⟨_, _, _, h4, h5, _⟩ := h
  obtain ⟨_, hrem⟩ := (ready_iff t).mp hr
  by_cases c : t.released m
  · have := h4 c
    omega
  · have := (h5 c).1
    omega

/-- One tick keeps a holder whose release point lies beyond its `wcet`. -/
theorem holder_kept (cfg : List TaskSpec) (hid : ids_are_positions cfg) (n : Nat)
    (s s' : Sim) (hs : sim_at cfg n = some s) (ht : tick (n : Int) s = some s')
    (j : Nat) (d : TaskSpec) (hd : cfg[j]? = some d)
    (hbad : d.mutex_start + d.mutex_dur > d.wcet) (hold : s.mu.holder_id = (j : Int)) :
    s'.mu.holder_id = (j : Int) := by
  obtain ⟨hst, hinv⟩ := dispatch_invariant cfg n s hs
  have hids := id_of_static cfg hid _ hst
  have hold1 : (after_releases (n : Int) s).mu.holder_id = (j : Int) := hold
  obtain ⟨_, hc⟩ := step_cases (n : Int) _ s' (tick_some _ _ _ ht).1
  rcases hc with ⟨_, e⟩ | ⟨i, tk, _, h0, hrdy, hb | hr⟩
  · subst e; exact hold1
  · rw [hb.2.2.2.1]; exact hold1
  · obtain ⟨_, hmu, _⟩ := hr
    have hm1 : mu_after_request (after_releases (n : Int) s) tk =
        (after_releases (n : Int) s).mu := by
      unfold mu_after_request
      rw [if_neg]
      rintro ⟨_, c⟩
      rw [hold1] at c
      omega
    rw [hm1] at hmu
    by_cases hrel : release_cond tk.exec (after_releases (n : Int) s).mu
    · exfalso
      obtain ⟨_, c2, c3⟩ := hrel
      have hij : i = j := by
        have e1 : tk.id = (i : Int) := hids i tk h0
        rw [hold1] at c3
        have : (j : Int) = (i : Int) := by rw [c3]; exact e1
        omega
      subst hij
      have hstat : tk.static = d := by
        have : cfg[i]? = some tk.static := by
          rw [← hst, List.getElem?_map, h0]; rfl
        rw [hd] at this
        exact (Option.some.inj this).symm
      have hb1 := ready_below_wcet (n + 1) tk (hinv tk (List.getElem?_mem h0)) hrdy
      have e1 : tk.mutex_start = d.mutex_start := by rw [← hstat]; rfl
      have e2 : tk.mutex_dur = d.mutex_dur := by rw [← hstat]; rfl
      have e3 : tk.wcet = d.wcet := by rw [← hstat]; rfl
      simp only [exec_exec_progress, exec_mutex_start, exec_mutex_dur] at c2
      omega
    · rw [hmu, if_neg hrel]; exact hold1

/-- C13. Unsatisfiable release: for a task set with non-negative `wcet`
values and ids equal to list positions, a task whose critical section has
`mutex_start + mutex_dur > wcet` and that holds the mutex after `n` iterations
of the tick loop still holds it after every larger number of iterations,
whatever remains of its job. -/
theorem unsatisfiable_release (cfg : List TaskSpec) (_hw : ∀ d ∈ cfg, 0 ≤ d.wcet)
    (hid : ids_are_positions cfg) (n m : Nat) (hnm : n ≤ m) (s s' : Sim)
    (hs : sim_at cfg n = some s) (hs' : sim_at cfg m = some s')
    (T : Task) (hT : T ∈ s.tasks) (_hcs : 0 ≤ T.mutex_start)
    (hbad : T.mutex_start + T.mutex_dur > T.wcet) (hold : s.mu.holder_id = T.id) :
    s'.mu.holder_id = T.id ∧ ∃ T' ∈ s'.tasks, T'.static = T.static := by
  obtain ⟨j, hj⟩ := List.getElem?_of_mem hT
  obtain ⟨hst, _⟩ := run_invariant cfg n s hs
  have hTid : T.id = (j : Int) := id_of_static cfg hid s.tasks hst j T hj
  have hd : cfg[j]? = some T.static := by
    rw [← hst, List.getElem?_map, hj]; rfl
  have key : ∀ (k : Nat) (u : Sim), sim_at cfg (n + k) = some u →
      u.mu.holder_id = (j : Int) := by
    intro k
    induction k with
    | zero =>
      intro u hu
      rw [Nat.add_zero, hs] at hu
      cases hu
      rw [hold, hTid]
    | succ k ih =>
      intro u hu
      obtain ⟨u0, h0, ht⟩ := (sim_at_succ cfg (n + k) u).mp hu
      exact holder_kept cfg hid (n + k) u0 u h0 ht j T.static hd hbad (ih u0 h0)
  obtain ⟨k, rfl⟩ := Nat.exists_eq_add_of_le hnm
  refine ⟨by rw [key k s' hs', hTid], ?_⟩
  obtain ⟨hst', _⟩ := run_invariant cfg (n + k) s' hs'
  have : (s'.tasks.map Task.static)[j]? = some T.static := by rw [hst']; exact hd
  rw [List.getElem?_map] at this
  cases hj' : s'.tasks[j]? with
  | none => rw [hj'] at this; cases this
  | some T' =>
    rw [hj'] at this
    exact ⟨T', List.getElem?_mem hj', Option.some.inj this⟩
/-- Witness for `unsatisfiable_release`: a task with `wcet = 2` and a
critical section from 0 for 5 holds the mutex after one iteration, and still
after four, when its job is over. -/
theorem unsatisfiable_release_witness :
    (∀ d ∈ overlong_section_cfg, 0 ≤ d.wcet) ∧ ids_are_positions overlong_section_cfg ∧
    ∃ (s s' : Sim) (T : Task), sim_at overlong_section_cfg 1 = some s ∧
      sim_at overlong_section_cfg 4 = some s' ∧
      T ∈ s.tasks ∧ 0 ≤ T.mutex_start ∧ T.mutex_start + T.mutex_dur > T.wcet ∧
      s.mu.holder_id = T.id ∧
      (s'.mu.holder_id = T.id ∧ ∃ T' ∈ s'.tasks, T'.static = T.static) :=
  ⟨by decide, by decide, (sim_at overlong_section_cfg 1).get rfl,
    (sim_at overlong_section_cfg 4).get rfl,
    ((sim_at overlong_section_cfg 1).get rfl).tasks.get ⟨0, by decide⟩,
    (Option.some_get _).symm, (Option.some_get _).symm, List.get_mem _ _ _, by decide,
    by decide, by decide,
    unsatisfiable_release overlong_section_cfg (by decide) (by decide) 1 4 (by decide) _ _
      (Option.some_get _).symm (Option.some_get _).symm _ (List.get_mem _ _ _) (by decide)
      (by decide) (by decide)⟩
/-! ## What a tick executes -/

/-- C14, as stated, fails: in tick 1 of the contending pair the high task
is dispatched at its request point while the low task holds the mutex, and
it blocks; its job is released at the head of that same tick, so its
`remaining` goes from 0 to its `wcet` 2 within the tick. -/
theorem blocking_frame_counterexample :
    ∃ (s0 s' : Sim) (R H t t' : Task), sim_at inversion_cfg 1 = some s0 ∧
      tick 1 s0 = some s' ∧
      pick_task (after_releases 1 s0).tasks = 1 ∧
      (after_releases 1 s0).tasks[1]? = some R ∧ R.requesting ∧
      (after_releases 1 s0).tasks[0]? = some H ∧
      (after_releases 1 s0).mu.holder_id = H.id ∧ H.id ≠ R.id ∧
      s0.tasks[1]? = some t ∧ s'.tasks[1]? = some t' ∧
      t.remaining = 0 ∧ t'.remaining = 2 ∧ t'.remaining ≠ t.remaining :=
  ⟨(sim_at inversion_cfg 1).get rfl, (tick 1 ((sim_at inversion_cfg 1).get rfl)).get rfl,
    _, _, _, _, (Option.some_get _).symm, (Option.some_get _).symm, by decide, rfl,
    by decide, rfl, by decide, by decide, rfl, rfl, by decide, by decide, by decide⟩

/-- C14, amended. A blocking tick executes nothing: in a tick whose
dispatched task requests the mutex while it is held under another id, no
task executes, the mutex holder is unchanged, and `remaining` and
`exec_progress` are unchanged for every task whose job is not released in
that tick; a task whose job is released in that tick has them reset to
`wcet` and 0 by the release loop. -/
theorem blocking_tick_frame (time : Int) (s s' : Sim) (h : tick time s = some s')
    (i : Nat) (R : Task) (hp : pick_task (after_releases time s).tasks = (i : Int))
    (hR : (after_releases time s).tasks[i]? = some R) (hb : blocks (after_releases time s) R) :
    runs_at (after_releases time s) = none ∧
    s'.mu.holder_id = s.mu.holder_id ∧ s'.tasks.length = s.tasks.length ∧
    ∀ (j : Nat) (t t' : Task), s.tasks[j]? = some t → s'.tasks[j]? = some t' →
      (¬ (time = t.release_time ∧ time ≠ 0) →
        t'.remaining = t.remaining ∧ t'.exec_progress = t.exec_progress) ∧
      ((time = t.release_time ∧ time ≠ 0) →
        t'.remaining = t.wcet ∧ t'.exec_progress = 0) := by
  have hne : ¬ ((i : Int) = -1) := by omega
  have hstep := (tick_some time s s' h).1
  rw [step_block time _ i R hp hR hb] at hstep
  refine ⟨by simp [runs_at, hp, hne, hR, hb], ?_⟩
  by_cases hh : (after_releases time s).mu.holder_id < 0
  · rw [block_undefined time i _ (Or.inl hh)] at hstep; cases hstep
  · cases h1 : (after_releases time s).tasks[(after_releases time s).mu.holder_id.toNat]? with
    | none => rw [block_undefined time i _ (Or.inr h1)] at hstep; cases hstep
    | some ht =>
      obtain ⟨s2, e, hmu, _, hpt⟩ := block_spec time i _ R ht hR (not_lt.mp hh) h1
      rw [e] at hstep
      cases hstep
      refine ⟨by rw [hmu]; rfl, ?_, ?_⟩
      · have := length_of_static _ _
          (static_of_pointwise _ _ _ hpt (fun j t => static_block_at _ _ _ j t))
        rw [this, after_releases_tasks, List.length_map]
      · intro j t t' hj hj'
        rw [hpt j, after_releases_tasks, List.getElem?_map, hj] at hj'
        simp only [Option.map_some', Option.some.injEq] at hj'
        subst hj'
        rw [block_at_remaining, block_at_exec_progress, release_at_remaining,
          release_at_exec_progress]
        constructor
        · intro hno
          rw [if_neg hno, if_neg hno]
          exact ⟨rfl, rfl⟩
        · intro hyes
          rw [if_pos hyes, if_pos hyes]
          exact ⟨rfl, rfl⟩

/-- Witness for `blocking_tick_frame`: tick 1 of the contending pair, where
the high task blocks on the mutex of the low task. -/
theorem blocking_tick_frame_witness :
    ∃ (s0 s' : Sim) (R : Task), sim_at inversion_cfg 1 = some s0 ∧ tick 1 s0 = some s' ∧
      pick_task (after_releases 1 s0).tasks = ((1 : Nat) : Int) ∧
      (after_releases 1 s0).tasks[1]? = some R ∧ blocks (after_releases 1 s0) R ∧
      runs_at (after_releases 1 s0) = none ∧
      s'.mu.holder_id = s0.mu.holder_id ∧ s'.tasks.length = s0.tasks.length ∧
      ∀ (j : Nat) (t t' : Task), s0.tasks[j]? = some t → s'.tasks[j]? = some t' →
        (¬ ((1 : Int) = t.release_time ∧ (1 : Int) ≠ 0) →
          t'.remaining = t.remaining ∧ t'.exec_progress = t.exec_progress) ∧
        (((1 : Int) = t.release_time ∧ (1 : Int) ≠ 0) →
          t'.remaining = t.wcet ∧ t'.exec_progress = 0) :=
  ⟨(sim_at inversion_cfg 1).get rfl, (tick 1 ((sim_at inversion_cfg 1).get rfl)).get rfl, _,
    (Option.some_get _).symm, (Option.some_get _).symm, by decide, rfl, by decide,
    blocking_tick_frame 1 _ _ (Option.some_get _).symm 1 _ (by decide) rfl (by decide)⟩

/-- C15. Single execution per tick: in one tick, among the tasks whose job
is not released in that tick, `exec_progress` changes for at most one; that
task is the one `pick_task` selects, its `exec_progress` grows by exactly 1
and its `remaining` shrinks by exactly 1. -/
theorem single_execution (time : Int) (s s' : Sim) (h : tick time s = some s') :
    (∀ (j : Nat) (t t' : Task), s.tasks[j]? = some t → s'.tasks[j]? = some t' →
      ¬ (time = t.release_time ∧ time ≠ 0) → t'.exec_progress ≠ t.exec_progress →
      pick_task (after_releases time s).tasks = (j : Int) ∧
      runs_at (after_releases time s) = some j ∧
      t'.exec_progress = t.exec_progress + 1 ∧ t'.remaining = t.remaining - 1) ∧
    (∀ (j k : Nat) (t t' u u' : Task), s.tasks[j]? = some t → s'.tasks[j]? = some t' →
      s.tasks[k]? = some u → s'.tasks[k]? = some u' →
      ¬ (time = t.release_time ∧ time ≠ 0) → ¬ (time = u.release_time ∧ time ≠ 0) →
      t'.exec_progress ≠ t.exec_progress → u'.exec_progress ≠ u.exec_progress → j = k) := by
  have main : ∀ (j : Nat) (t t' : Task), s.tasks[j]? = some t → s'.tasks[j]? = some t' →
      ¬ (time = t.release_time ∧ time ≠ 0) → t'.exec_progress ≠ t.exec_progress →
      pick_task (after_releases time s).tasks = (j : Int) ∧
      runs_at (after_releases time s) = some j ∧
      t'.exec_progress = t.exec_progress + 1 ∧ t'.remaining = t.remaining - 1 := by
    intro j t t' hj hj' hno hch
    have hj1 : (after_releases time s).tasks[j]? = some t := by
      rw [after_releases_tasks, List.getElem?_map, hj]
      simp [release_at_of_not _ _ hno]
    obtain ⟨_, hc⟩ := step_cases time _ s' (tick_some _ _ _ h).1
    rcases hc with ⟨_, e⟩ | ⟨i, tk, hp, h0, _, hb | hr⟩
    · subst e
      rw [hj1] at hj'
      cases hj'
      exact absurd rfl hch
    · obtain ⟨_, _, _, _, hpt⟩ := hb
      rw [hpt j, hj1] at hj'
      simp only [Option.map_some', Option.some.injEq] at hj'
      subst hj'
      exact absurd (block_at_exec_progress _ _ _ _ _) hch
    · obtain ⟨hnb, _, hpt⟩ := hr
      rw [hpt j, hj1] at hj'
      simp only [Option.map_some', Option.some.injEq] at hj'
      subst hj'
      by_cases hji : j = i
      · subst hji
        refine ⟨hp, (runs_at_eq _ j).mpr ⟨hp, tk, h0, hnb⟩, ?_, ?_⟩
        · rw [run_at_exec_progress, if_pos rfl]
        · rw [run_at_remaining, if_pos rfl]
      · exfalso
        apply hch
        rw [run_at_exec_progress, if_neg hji]
  refine ⟨main, ?_⟩
  intro j k t t' u u' hj hj' hk hk' hnj hnk hcj hck
  have a := (main j t t' hj hj' hnj hcj).1
  have b := (main k u u' hk hk' hnk hck).1
  rw [a] at b
  exact_mod_cast b

/-- Witness for `single_execution`: the holder executes the last millisecond
of its critical section. -/
theorem single_execution_witness :
    ∃ s', tick 1 holding_state = some s' ∧
      (∀ (j : Nat) (t t' : Task), holding_state.tasks[j]? = some t → s'.tasks[j]? = some t' →
        ¬ ((1 : Int) = t.release_time ∧ (1 : Int) ≠ 0) →
        t'.exec_progress ≠ t.exec_progress →
        pick_task (after_releases 1 holding_state).tasks = (j : Int) ∧
        runs_at (after_releases 1 holding_state) = some j ∧
        t'.exec_progress = t.exec_progress + 1 ∧ t'.remaining = t.remaining - 1) ∧
      (∀ (j k : Nat) (t t' u u' : Task), holding_state.tasks[j]? = some t →
        s'.tasks[j]? = some t' → holding_state.tasks[k]? = some u → s'.tasks[k]? = some u' →
        ¬ ((1 : Int) = t.release_time ∧ (1 : Int) ≠ 0) →
        ¬ ((1 : Int) = u.release_time ∧ (1 : Int) ≠ 0) →
        t'.exec_progress ≠ t.exec_progress → u'.exec_progress ≠ u.exec_progress → j = k) :=
  ⟨(tick 1 holding_state).get rfl, (Option.some_get _).symm,
    single_execution 1 holding_state _ (Option.some_get _).symm⟩
/-! ## The lookup of the holder -/

/-- The defect behind C16, evaluated. With the distinct ids 1 and 0 at
positions 0 and 1, the block branch runs in tick 2 with `mu.holder_id = 1`,
the id of the task at position 0; `tasks[mu.holder_id]` is the record at
position 1, the requester itself, whose id is 0, and the Blocked event
names it as the holder. With the distinct ids 5 and 7 the same branch reads
position 5 of a vector of two records, and the run is undefined from
there. -/
theorem holder_lookup_misses :
    (swapped_ids_cfg.map (fun d => d.id)).Nodup ∧
    (∃ (s : Sim) (R L : Task), sim_at swapped_ids_cfg 2 = some s ∧
      pick_task (after_releases 2 s).tasks = 1 ∧
      (after_releases 2 s).tasks[1]? = some R ∧ blocks (after_releases 2 s) R ∧
      (after_releases 2 s).mu.holder_id = 1 ∧
      (after_releases 2 s).tasks[(after_releases 2 s).mu.holder_id.toNat]? = some L ∧
      L.id = 0 ∧ L = R) ∧
    events_of swapped_ids_cfg 2 =
      some ["0002 ms: H released", "0002 ms: H blocked waiting for mutex (holder=H)"] ∧
    (sparse_ids_cfg.map (fun d => d.id)).Nodup ∧
    (∃ (s : Sim) (R : Task), sim_at sparse_ids_cfg 2 = some s ∧
      pick_task (after_releases 2 s).tasks = 1 ∧
      (after_releases 2 s).tasks[1]? = some R ∧ blocks (after_releases 2 s) R ∧
      (after_releases 2 s).mu.holder_id = 5 ∧ (after_releases 2 s).tasks.length = 2 ∧
      block 2 1 (after_releases 2 s) = none ∧ step 2 (after_releases 2 s) = none ∧
      tick 2 s = none) ∧
    sim_at sparse_ids_cfg 3 = none :=
  ⟨by decide,
    ⟨(sim_at swapped_ids_cfg 2).get rfl, _, _, (Option.some_get _).symm, by decide, rfl,
      by decide, by decide, rfl, by decide, rfl⟩,
    by decide, by decide,
    ⟨(sim_at sparse_ids_cfg 2).get rfl, _, (Option.some_get _).symm, by decide, rfl,
      by decide, by decide, by decide, by decide, by decide, by decide⟩,
    by decide⟩
/-! ## Blocked tasks and their holder -/

theorem released_mono (n : Nat) (t : Task) (h : t.released n) : t.released (n + 1) := by
  rcases h with h0 | ⟨ha, hb⟩
  · exact Or.inl h0
  · right
    push_cast
    exact ⟨ha, by omega⟩

theorem released_not_due (n : Nat) (t : Task) (h : t.released n) :
    ¬ ((n : Int) = t.release_time ∧ (n : Int) ≠ 0) := by
  rintro ⟨e1, e2⟩
  rcases h with r | ⟨_, r⟩ <;> omega

theorem ready_released (m : Nat) (t : Task) (h : task_inv m t) (hr : t.ready = true) :
    t.released m := by
  by_contra hn
  have := (h.2.2.2.2.1 hn).1
  have := ((ready_iff t).mp hr).2
  omega

theorem holder_released_releases (n : Nat) (s : Sim) (h : holder_released n s) :
    holder_released (n + 1) (after_releases (n : Int) s) := by
  intro j t hj hh
  rw [after_releases_tasks, List.getElem?_map] at hj
  cases hu : s.tasks[j]? with
  | none => rw [hu] at hj; cases hj
  | some u =>
    rw [hu] at hj
    simp only [Option.map_some', Option.some.injEq] at hj
    subst hj
    have := released_mono n u (h j u hu hh)
    simpa [Task.released] using this

theorem holder_released_step (m : Nat) (time : Int) (s s' : Sim)
    (hids : ∀ (j : Nat) (t : Task), s.tasks[j]? = some t → t.id = (j : Int))
    (hinv : ∀ t ∈ s.tasks, task_inv m t)
    (h : step time s = some s') (hr : holder_released m s) : holder_released m s' := by
  obtain ⟨_, hc⟩ := step_cases time s s' h
  rcases hc with ⟨_, e⟩ | ⟨i, tk, _, h0, hrdy, hb | hrun⟩
  · subst e; exact hr
  · obtain ⟨_, _, _, hmu, hpt⟩ := hb
    intro j t hj hh
    rw [hpt j] at hj
    cases hu : s.tasks[j]? with
    | none => rw [hu] at hj; cases hj
    | some u =>
      rw [hu] at hj
      simp only [Option.map_some', Option.some.injEq] at hj
      subst hj
      rw [hmu] at hh
      have := hr j u hu hh
      simpa [Task.released] using this
  · obtain ⟨_, hmu, hpt⟩ := hrun
    intro j t hj hh
    rw [hpt j] at hj
    cases hu : s.tasks[j]? with
    | none => rw [hu] at hj; cases hj
    | some u =>
      rw [hu] at hj
      simp only [Option.map_some', Option.some.injEq] at hj
      subst hj
      have hu_rel : u.released m := by
        by_cases hrel : release_cond tk.exec (mu_after_request s tk)
        · rw [hmu, if_pos hrel] at hh
          simp at hh
        · rw [hmu, if_neg hrel] at hh
          by_cases hacq : tk.requesting ∧ s.mu.holder_id = -1
          · simp only [mu_after_request, if_pos hacq] at hh
            have e1 : tk.id = (i : Int) := hids i tk h0
            have : j = i := by rw [e1] at hh; exact_mod_cast hh.symm
            subst this
            rw [h0] at hu
            cases hu
            exact ready_released m tk (hinv tk (List.getElem?_mem h0)) hrdy
          · simp only [mu_after_request, if_neg hacq] at hh
            exact hr j u hu hh
      simpa [Task.released] using hu_rel

theorem waiters_inv_releases (n : Nat) (s : Sim) (hr : holder_released n s)
    (hw : waiters_inv s) : waiters_inv (after_releases (n : Int) s) := by
  intro j B' hj hB
  rw [after_releases_tasks, List.getElem?_map] at hj
  cases hu : s.tasks[j]? with
  | none => rw [hu] at hj; cases hj
  | some B =>
    rw [hu] at hj
    simp only [Option.map_some', Option.some.injEq] at hj
    subst hj
    have hno : ¬ ((n : Int) = B.release_time ∧ (n : Int) ≠ 0) := by
      intro c
      have := hB.1
      rw [release_at_active, if_pos c] at this
      cases this
    rw [release_at_of_not _ _ hno] at hB ⊢
    obtain ⟨a, b, c⟩ := hw j B hu hB
    refine ⟨a, b, ?_⟩
    intro h H' hh hH
    rw [after_releases_tasks, List.getElem?_map] at hH
    cases hv : s.tasks[h]? with
    | none => rw [hv] at hH; cases hH
    | some H =>
      rw [hv] at hH
      simp only [Option.map_some', Option.some.injEq] at hH
      subst hH
      rw [release_at_of_not _ _ (released_not_due n H (hr h H hv hh))]
      exact c h H hh hv

/-- A task that has just executed is not Blocked. -/
theorem ran_not_blocked (rel : Bool) (i : Nat) (k : Int) (t : Task) (hr : t.ready = true) :
    ¬ (run_at rel i k i t).blocked := by
  rintro ⟨b1, b2⟩
  rw [run_at_active, if_pos rfl] at b1
  rw [run_at_remaining, if_pos rfl] at b2
  rw [if_neg (by omega)] at b1
  rw [((ready_iff t).mp hr).1] at b1
  cases b1

theorem waiters_inv_step (m : Nat) (time : Int) (s s' : Sim)
    (hids : ∀ (j : Nat) (t : Task), s.tasks[j]? = some t → t.id = (j : Int))
    (hinv : ∀ t ∈ s.tasks, task_inv m t)
    (h : step time s = some s') (hw : waiters_inv s) : waiters_inv s' := by
  obtain ⟨_, hc⟩ := step_cases time s s' h
  rcases hc with ⟨_, e⟩ | ⟨i, tk, _, h0, hrdy, hb | hrun⟩
  · subst e; exact hw
  · obtain ⟨hb, hge, _, hmu, hpt⟩ := hb
    have hid : tk.id = (i : Int) := hids i tk h0
    have hhi : s.mu.holder_id ≠ (i : Int) := by rw [← hid]; exact hb.2.2
    have hto : ((s.mu.holder_id.toNat : Nat) : Int) = s.mu.holder_id :=
      Int.toNat_of_nonneg hge
    intro j B' hj hB
    rw [hpt j] at hj
    cases hu : s.tasks[j]? with
    | none => rw [hu] at hj; cases hj
    | some B =>
      rw [hu] at hj
      simp only [Option.map_some', Option.some.injEq] at hj
      subst hj
      rw [hmu]
      -- the holder after the step, at position `h`
      have hold_cur : ∀ (h : Nat) (H : Task), s.mu.holder_id = (h : Int) →
          s.tasks[h]? = some H →
          (block_at i s.mu.holder_id.toNat tk.cur_priority h H).cur_priority =
            max H.cur_priority tk.cur_priority := by
        intro h H hh _
        have e : h = s.mu.holder_id.toNat := by omega
        rw [block_at_cur_priority]
        by_cases c : H.cur_priority < tk.cur_priority
        · rw [if_pos ⟨e, c⟩, max_eq_right (le_of_lt c)]
        · rw [if_neg (fun x => c x.2), max_eq_left (not_lt.mp c)]
      by_cases hji : j = i
      · subst hji
        rw [h0] at hu
        cases hu
        refine ⟨hb.2.1, hhi, ?_⟩
        intro h H' hh hH
        rw [hpt h] at hH
        cases hv : s.tasks[h]? with
        | none => rw [hv] at hH; cases hH
        | some H =>
          rw [hv] at hH
          simp only [Option.map_some', Option.some.injEq] at hH
          subst hH
          rw [hold_cur h H hh hv, block_at_cur_priority]
          have hjh : ¬ (j = s.mu.holder_id.toNat) := by omega
          rw [if_neg (fun x => hjh x.1)]
          exact le_max_right _ _
      · have hBs : B.blocked := by
          obtain ⟨b1, b2⟩ := hB
          rw [block_at_active, if_neg hji] at b1
          exact ⟨b1, by simpa using b2⟩
        obtain ⟨a, b, c⟩ := hw j B hu hBs
        refine ⟨a, b, ?_⟩
        intro h H' hh hH
        rw [hpt h] at hH
        cases hv : s.tasks[h]? with
        | none => rw [hv] at hH; cases hH
        | some H =>
          rw [hv] at hH
          simp only [Option.map_some', Option.some.injEq] at hH
          subst hH
          rw [hold_cur h H hh hv, block_at_cur_priority]
          have hjh : ¬ (j = s.mu.holder_id.toNat) := by omega
          rw [if_neg (fun x => hjh x.1)]
          exact le_trans (c h H hh hv) (le_max_left _ _)
  · obtain ⟨_, hmu, hpt⟩ := hrun
    have hid : tk.id = (i : Int) := hids i tk h0
    intro j B' hj hB
    rw [hpt j] at hj
    cases hu : s.tasks[j]? with
    | none => rw [hu] at hj; cases hj
    | some B =>
      rw [hu] at hj
      simp only [Option.map_some', Option.some.injEq] at hj
      subst hj
      by_cases hji : j = i
      · subst hji
        rw [h0] at hu
        cases hu
        exact absurd hB (ran_not_blocked _ j _ _ hrdy)
      · by_cases hrel : release_cond tk.exec (mu_after_request s tk)
        · -- the wake loop has made every Blocked task active
          exfalso
          obtain ⟨b1, b2⟩ := hB
          rw [run_at_active, if_neg hji] at b1
          rw [run_at_remaining, if_neg hji] at b2
          by_cases hwk : wake_cond tk.id B = true
          · rw [if_pos ⟨by simp [hrel], hwk⟩] at b1
            cases b1
          · rw [if_neg (fun x => hwk x.2)] at b1
            apply hwk
            obtain ⟨_, t2, _, _, _, t6⟩ := hinv B (List.getElem?_mem hu)
            have hq := t6 ⟨b1, b2⟩
            have e1 : B.id = (j : Int) := hids j B hu
            have hne : ¬ (B.id = tk.id) := by rw [e1, hid]; omega
            simp [wake_cond, b1, b2, t2, hne, hq.1.symm]
        · have hBs : B.blocked := by
            obtain ⟨b1, b2⟩ := hB
            rw [run_at_active, if_neg hji, if_neg (fun x => by simp [hrel] at x)] at b1
            rw [run_at_remaining, if_neg hji] at b2
            exact ⟨b1, b2⟩
          obtain ⟨a, b, c⟩ := hw j B hu hBs
          have hm1 : mu_after_request s tk = s.mu := by
            unfold mu_after_request
            rw [if_neg (fun x => a x.2)]
          rw [hmu, if_neg hrel, hm1]
          refine ⟨a, b, ?_⟩
          intro h H' hh hH
          rw [hpt h] at hH
          cases hv : s.tasks[h]? with
          | none => rw [hv] at hH; cases hH
          | some H =>
            rw [hv] at hH
            simp only [Option.map_some', Option.some.injEq] at hH
            subst hH
            rw [run_at_cur_priority, run_at_cur_priority, if_neg (fun x => hji x.1),
              if_neg (fun x => by simp [hrel] at x)]
            exact c h H hh hv

/-- After `n` iterations over a task set whose ids are positions, the
holder has been released and dominates every Blocked task. -/
theorem run_waiters_inv (cfg : List TaskSpec) (hid : ids_are_positions cfg) :
    ∀ (n : Nat) (s : Sim), sim_at cfg n = some s → holder_released n s ∧ waiters_inv s := by
  intro n
  induction n with
  | zero =>
    intro s h
    obtain ⟨_, hinv⟩ := run_invariant cfg 0 s h
    obtain ⟨h, _⟩ := sim_at_zero cfg s h
    subst h
    constructor
    · intro j t _ hh
      rw [start_mu] at hh
      omega
    · intro j B hj hB
      exfalso
      obtain ⟨_, _, _, _, h5, _⟩ := hinv B (List.getElem?_mem hj)
      rw [start_tasks, List.map_map, List.getElem?_map] at hj
      cases hd : cfg[j]? with
      | none => rw [hd] at hj; cases hj
      | some d =>
        rw [hd] at hj
        simp only [Option.map_some', Option.some.injEq, Function.comp] at hj
        subst hj
        by_cases c : (build d).release_time = 0
        · rw [init_at, if_pos c] at hB
          exact absurd hB.1 (by simp [Task.start_job])
        · rw [init_at, if_neg c] at hB
          exact absurd hB.2 (by simp [build, Task.new])
  | succ n ih =>
    intro s h
    obtain ⟨s0, h0, ht⟩ := (sim_at_succ cfg n s).mp h
    obtain ⟨hr0, hw0⟩ := ih s0 h0
    obtain ⟨hst, hinv⟩ := dispatch_invariant cfg n s0 h0
    have hids := id_of_static cfg hid _ hst
    exact ⟨holder_released_step (n + 1) (n : Int) _ s hids hinv (tick_some _ _ _ ht).1
        (holder_released_releases n s0 hr0),
      waiters_inv_step (n + 1) (n : Int) _ s hids hinv (tick_some _ _ _ ht).1
        (waiters_inv_releases n s0 hr0 hw0)⟩
/-- The task `pick_task` selects has at least the priority of every Ready
task; and it selects one when some Ready task has a non-negative priority. -/
theorem pick_dominates (l : List Task) (H : Task) (hH : H ∈ l) (hr : H.ready = true) :
    (∀ (k : Nat) (t : Task), pick_task l = (k : Int) → l[k]? = some t →
      H.cur_priority ≤ t.cur_priority) ∧
    (0 ≤ H.cur_priority → pick_task l ≠ -1) := by
  obtain ⟨j, hj⟩ := List.getElem?_of_mem hH
  rcases pick_task_spec l with ⟨h1, h2⟩ | ⟨k0, t0, hk0, h1, _, h3, h4, _⟩
  · constructor
    · intro k t hp _
      rw [h1] at hp
      omega
    · intro h0
      have := h2 H hH hr
      omega
  · constructor
    · intro k t hp hk
      have e : k0 = k := by rw [h1] at hp; exact_mod_cast hp
      subst e
      rw [hk0] at hk
      cases hk
      exact h4 j H hj hr
    · intro _
      rw [h1]
      omega

/-- The record at the position of the holder, in a run whose ids are
positions. -/
theorem holder_record (cfg : List TaskSpec) (hid : ids_are_positions cfg) (n : Nat) (s : Sim)
    (hs : sim_at cfg n = some s) (hh : s.mu.holder_id ≠ -1) :
    ∃ (h : Nat) (H : Task), s.mu.holder_id = (h : Int) ∧ s.tasks[h]? = some H ∧
      H.id = s.mu.holder_id := by
  obtain ⟨hv, _⟩ := run_holder_inv cfg hid n s hs
  rcases hv with e | ⟨h1, h2⟩
  · exact absurd e hh
  · have hj : s.tasks[s.mu.holder_id.toNat]? = some (s.tasks[s.mu.holder_id.toNat]) :=
      List.getElem?_eq_getElem h2
    have hjj : s.mu.holder_id = ((s.mu.holder_id.toNat : Nat) : Int) :=
      (Int.toNat_of_nonneg h1).symm
    refine ⟨_, _, hjj, hj, ?_⟩
    rw [id_of_static cfg hid s.tasks (run_invariant cfg n s hs).1 _ _ hj]
    exact hjj.symm

/-- C17. Inversion bound: for a task set whose ids are their list
positions, after any number of iterations of the tick loop every Blocked
task `B` has `cur_priority` at most that of the mutex holder `H`; and while
`H` is Ready, the task that `pick_task` selects, in that state and at the
dispatch point of the next tick, has `cur_priority ≥ B.cur_priority`, and a
task is selected as soon as `H.cur_priority ≥ 0`. -/
theorem holder_dominates_waiters (cfg : List TaskSpec) (hid : ids_are_positions cfg)
    (n : Nat) (s : Sim) (hs : sim_at cfg n = some s) (B : Task) (hB : B ∈ s.tasks)
    (hbl : B.blocked) :
    ∃ H ∈ s.tasks, H.id = s.mu.holder_id ∧ B.cur_priority ≤ H.cur_priority ∧
      (H.ready = true →
        (∀ (k : Nat) (t : Task), pick_task s.tasks = (k : Int) → s.tasks[k]? = some t →
          B.cur_priority ≤ t.cur_priority) ∧
        (∀ (k : Nat) (t : Task),
          pick_task (after_releases (n : Int) s).tasks = (k : Int) →
          (after_releases (n : Int) s).tasks[k]? = some t →
          B.cur_priority ≤ t.cur_priority) ∧
        (0 ≤ H.cur_priority → pick_task s.tasks ≠ -1 ∧
          pick_task (after_releases (n : Int) s).tasks ≠ -1)) := by
  obtain ⟨j, hj⟩ := List.getElem?_of_mem hB
  obtain ⟨hr, hw⟩ := run_waiters_inv cfg hid n s hs
  obtain ⟨a, _, c⟩ := hw j B hj hbl
  obtain ⟨h, H, hh, hH, hHid⟩ := holder_record cfg hid n s hs a
  have hle := c h H hh hH
  have hmem : H ∈ s.tasks := List.getElem?_mem hH
  have hmem1 : H ∈ (after_releases (n : Int) s).tasks := by
    rw [after_releases_tasks]
    refine List.mem_map.mpr ⟨H, hmem, ?_⟩
    exact release_at_of_not _ _ (released_not_due n H (hr h H hH hh))
  refine ⟨H, hmem, hHid, hle, ?_⟩
  intro hrdy
  obtain ⟨p1, p2⟩ := pick_dominates s.tasks H hmem hrdy
  obtain ⟨q1, q2⟩ := pick_dominates (after_releases (n : Int) s).tasks H hmem1 hrdy
  exact ⟨fun k t hp hk => le_trans hle (p1 k t hp hk),
    fun k t hp hk => le_trans hle (q1 k t hp hk), fun h0 => ⟨p2 h0, q2 h0⟩⟩

/-- Witness for `holder_dominates_waiters`: after tick 1 of the contending
pair the high task is Blocked and the low task holds the mutex with the
inherited priority. -/
theorem holder_dominates_waiters_witness :
    ids_are_positions inversion_cfg ∧
    ∃ (s : Sim) (B : Task), sim_at inversion_cfg 2 = some s ∧ B ∈ s.tasks ∧ B.blocked ∧
      ∃ H ∈ s.tasks, H.id = s.mu.holder_id ∧ B.cur_priority ≤ H.cur_priority ∧
        (H.ready = true →
          (∀ (k : Nat) (t : Task), pick_task s.tasks = (k : Int) → s.tasks[k]? = some t →
            B.cur_priority ≤ t.cur_priority) ∧
          (∀ (k : Nat) (t : Task),
            pick_task (after_releases ((2 : Nat) : Int) s).tasks = (k : Int) →
            (after_releases ((2 : Nat) : Int) s).tasks[k]? = some t →
            B.cur_priority ≤ t.cur_priority) ∧
          (0 ≤ H.cur_priority → pick_task s.tasks ≠ -1 ∧
            pick_task (after_releases ((2 : Nat) : Int) s).tasks ≠ -1)) :=
  ⟨by decide, (sim_at inversion_cfg 2).get rfl,
    ((sim_at inversion_cfg 2).get rfl).tasks.get ⟨1, by decide⟩,
    (Option.some_get _).symm, List.get_mem _ _ _, by decide,
    holder_dominates_waiters inversion_cfg (by decide) 2 _ (Option.some_get _).symm _
      (List.get_mem _ _ _) (by decide)⟩

/-- C18. No lost wake-up: for a task set whose ids are their list
positions, after any number of iterations of the tick loop every Blocked
task finds the mutex held, by a task of another id, and stands at its own
request point; so when the mutex is free no task is Blocked. -/
theorem no_lost_wakeup (cfg : List TaskSpec) (hid : ids_are_positions cfg)
    (n : Nat) (s : Sim) (hs : sim_at cfg n = some s) :
    (∀ B ∈ s.tasks, B.blocked →
      B.released n ∧ s.mu.holder_id ≠ -1 ∧ s.mu.holder_id ≠ B.id ∧
      (∃ H ∈ s.tasks, H.id = s.mu.holder_id) ∧
      B.exec_progress = B.mutex_start ∧ 0 ≤ B.mutex_start) ∧
    (s.mu.holder_id = -1 → ∀ t ∈ s.tasks, ¬ t.blocked) := by
  obtain ⟨hst, hinv⟩ := run_invariant cfg n s hs
  obtain ⟨_, hw⟩ := run_waiters_inv cfg hid n s hs
  have key : ∀ B ∈ s.tasks, B.blocked →
      B.released n ∧ s.mu.holder_id ≠ -1 ∧ s.mu.holder_id ≠ B.id ∧
      (∃ H ∈ s.tasks, H.id = s.mu.holder_id) ∧
      B.exec_progress = B.mutex_start ∧ 0 ≤ B.mutex_start := by
    intro B hB hbl
    obtain ⟨j, hj⟩ := List.getElem?_of_mem hB
    obtain ⟨a, b, _⟩ := hw j B hj hbl
    obtain ⟨_, _, _, _, t5, t6⟩ := hinv B hB
    obtain ⟨h, H, _, hH, hHid⟩ := holder_record cfg hid n s hs a
    have hq := t6 hbl
    refine ⟨?_, a, ?_, ⟨H, List.getElem?_mem hH, hHid⟩, hq.1, hq.2⟩
    · by_contra hn
      have := (t5 hn).1
      have := hbl.2
      omega
    · rw [id_of_static cfg hid s.tasks hst j B hj]; exact b
  refine ⟨key, ?_⟩
  intro hfree t ht hbl
  exact (key t ht hbl).2.1 hfree

/-- Witness for `no_lost_wakeup`: the state after tick 1 of the contending
pair, where the high task is Blocked on the mutex of the low task. -/
theorem no_lost_wakeup_witness :
    ids_are_positions inversion_cfg ∧
    ∃ s : Sim, sim_at inversion_cfg 2 = some s ∧
      (∀ B ∈ s.tasks, B.blocked →
        B.released 2 ∧ s.mu.holder_id ≠ -1 ∧ s.mu.holder_id ≠ B.id ∧
        (∃ H ∈ s.tasks, H.id = s.mu.holder_id) ∧
        B.exec_progress = B.mutex_start ∧ 0 ≤ B.mutex_start) ∧
      (s.mu.holder_id = -1 → ∀ t ∈ s.tasks, ¬ t.blocked) :=
  ⟨by decide, (sim_at inversion_cfg 2).get rfl, (Option.some_get _).symm,
    no_lost_wakeup inversion_cfg (by decide) 2 _ (Option.some_get _).symm⟩

end RtosScheduler
